import Mathlib

/-!
Verification development for an ASS (Advanced SubStation Alpha) subtitle
compiler: document model, parser, serializer, cross-reference resolver,
language/title/chapter extractors, and the time codec.

Strings are embedded as `List Char`; Python dictionaries as ordered
association lists with insert-or-update-in-place semantics; Python float
arithmetic as exact rationals; fallible operations return `Except PyErr`.
-/

/-- Strings are modelled as lists of characters. -/
abbrev Str : Type := List Char

/-- Coerce a Lean string literal into the `Str` model. -/
def chars (s : String) : Str := s.data

/-- Python exception classes that the program can raise. -/
inductive PyErr : Type
  | runtimeError (msg : Str)
  | keyError (key : Str)
  | valueError
  | typeError
  deriving DecidableEq, Repr

/-- Python whitespace characters recognised by `str.strip()`. -/
def pyIsWS (c : Char) : Bool :=
  c = ' ' || c = '\t' || c = '\n' || c = '\r' || c = Char.ofNat 11 || c = Char.ofNat 12

/-- Remove leading whitespace. -/
def stripL (l : Str) : Str := l.dropWhile pyIsWS

/-- Remove trailing whitespace. -/
def stripR (l : Str) : Str := (stripL l.reverse).reverse

/-- Python `str.strip()`: remove leading and trailing whitespace. -/
def pyStrip (l : Str) : Str := stripL (stripR l)

/-- Split at the first occurrence of `sep`, if any (Python `str.find` + slicing). -/
def splitOnFirst (sep : Char) : Str → Option (Str × Str)
  | [] => none
  | c :: t =>
      if c = sep then some ([], t)
      else (splitOnFirst sep t).map (fun p => (c :: p.1, p.2))

/-- Python `str.split(sep)` with a one-character separator (unlimited splits). -/
def splitAll (sep : Char) : Str → List Str
  | [] => [[]]
  | c :: t =>
      if c = sep then [] :: splitAll sep t
      else
        match splitAll sep t with
        | [] => [[c]]
        | p :: ps => (c :: p) :: ps

/-- Python `str.split(sep, maxsplit)` with a one-character separator. -/
def splitLimit (sep : Char) : Nat → Str → List Str
  | 0, l => [l]
  | n + 1, l =>
      match splitOnFirst sep l with
      | none => [l]
      | some (a, b) => a :: splitLimit sep n b

/-- Python `sep.join(parts)`. -/
def joinSep (sep : Str) : List Str → Str
  | [] => []
  | [x] => x
  | x :: xs => x ++ sep ++ joinSep sep xs

/-- Ordered string-keyed dictionary (Python `dict` with string keys). -/
abbrev Dict : Type := List (Str × Str)

/-- First-match lookup in an ordered dictionary. -/
def dlookup (k : Str) : Dict → Option Str
  | [] => none
  | (k', v) :: t => if k' = k then some v else dlookup k t

/-- Python `d[k] = v`: update in place when the key exists, else append. -/
def dinsert (k : Str) (v : Str) : Dict → Dict
  | [] => [(k, v)]
  | (k', v') :: t => if k' = k then (k, v) :: t else (k', v') :: dinsert k v t

/-- Python `dict(pairs)`: left-to-right insertion. -/
def buildDict (ps : List (Str × Str)) : Dict :=
  ps.foldl (fun d kv => dinsert kv.1 kv.2 d) []

/-- Python `d[k]` on a dictionary: `KeyError` when absent. -/
def pyGet (d : Dict) (k : Str) : Except PyErr Str :=
  match dlookup k d with
  | some v => .ok v
  | none => .error (.keyError k)

/-- Value of a decimal digit character. -/
def digitVal (c : Char) : Option Nat :=
  if '0' ≤ c ∧ c ≤ '9' then some (c.toNat - '0'.toNat) else none

/-- Accumulating decimal parser. -/
def parseNatAux : Nat → Str → Option Nat
  | acc, [] => some acc
  | acc, c :: t =>
      match digitVal c with
      | some d => parseNatAux (10 * acc + d) t
      | none => none

/-- Parse a non-empty all-digit string as a natural number (subset of `int(s, 10)`). -/
def parseNat (l : Str) : Option Nat :=
  if l = [] then none else parseNatAux 0 l

/-- Decimal digit character for a value below ten. -/
def digitChar (n : Nat) : Char := Char.ofNat ('0'.toNat + n)

/-- Decimal representation of a natural number, most significant digit first. -/
def natToDigits (n : Nat) : Str :=
  if h : n < 10 then [digitChar n]
  else natToDigits (n / 10) ++ [digitChar (n % 10)]
  decreasing_by exact Nat.div_lt_self (Nat.lt_of_lt_of_le (by norm_num) (Nat.le_of_not_lt h)) (by norm_num)

/-- Decimal representation of an integer (Python `str(i)` / `f-string`). -/
def intRepr (i : ℤ) : Str :=
  if i < 0 then '-' :: natToDigits (-i).toNat else natToDigits i.toNat

/-- Zero-pad a natural number to at least two digits (Python `{:02d}`). -/
def pad2 (n : Nat) : Str :=
  if n < 10 then '0' :: natToDigits n else natToDigits n

/-- Parse a decimal string `digits` or `digits.digits` as a rational
(the subset of Python `float(s)` exercised by the program). -/
def parseFloat (l : Str) : Option ℚ :=
  match splitAll '.' l with
  | [ip] => (parseNat ip).map (fun n => (n : ℚ))
  | [ip, fp] =>
      match parseNat ip, parseNat fp with
      | some a, some b => some ((a : ℚ) + (b : ℚ) / (10 : ℚ) ^ fp.length)
      | _, _ => none
  | _ => none

/-- Python `int(x)` on a float: truncation toward zero. -/
def pyInt (q : ℚ) : ℤ := if 0 ≤ q then ⌊q⌋ else -⌊-q⌋

/-- Round to the nearest integer, ties to even (IEEE-754 / Python format rounding). -/
def roundHalfEven (q : ℚ) : ℤ :=
  let n := ⌊q⌋
  let f := q - (n : ℚ)
  if f < 1 / 2 then n
  else if 1 / 2 < f then n + 1
  else if Even n then n else n + 1

/-! ## Codec primitives (`asstime_from_float`, `asstime_to_float`) -/

/-- `asstime_from_float`: encode a number of seconds as `H:MM:SS.CC`
(`f"{h}:{m:02d}:{s:05.02f}"` with `h = int(val) // 3600`,
`m = (int(val) // 60) % 60`, `s = val % 60`). -/
def asstime_from_float (val : ℚ) : Str :=
  let n : ℤ := pyInt val
  let h : ℤ := Int.fdiv n 3600
  let m : ℤ := Int.fmod (Int.fdiv n 60) 60
  let s : ℚ := val - 60 * ⌊val / 60⌋
  let c : ℤ := roundHalfEven (100 * s)
  intRepr h ++ ':' :: pad2 m.toNat ++ ':' :: (pad2 (c.toNat / 100) ++ '.' :: pad2 (c.toNat % 100))

/-- `asstime_to_float`: decode `H:MM:SS...` (split on the first two `:`)
into seconds; raises `ValueError` on a malformed string. -/
def asstime_to_float (val : Str) : Except PyErr ℚ :=
  match splitLimit ':' 2 val with
  | [hs, ms, ss] =>
      match parseNat hs, parseNat ms, parseFloat ss with
      | some h, some m, some s => .ok ((h : ℚ) * 3600 + (m : ℚ) * 60 + s)
      | _, _, _ => .error .valueError
  | _ => .error .valueError

/-! ## Document model -/

/-- An ASS style: an ordered field map (`AssStyle.data`). -/
structure AssStyle : Type where
  data : Dict
  deriving DecidableEq, Repr

/-- The canonical style field order `AssStyle.HEADERS`. -/
def STYLE_HEADERS : List Str :=
  [chars "Name", chars "Fontname", chars "Fontsize", chars "PrimaryColour",
   chars "SecondaryColour", chars "OutlineColour", chars "BackColour", chars "Bold",
   chars "Italic", chars "Underline", chars "StrikeOut", chars "ScaleX", chars "ScaleY",
   chars "Spacing", chars "Angle", chars "BorderStyle", chars "Outline", chars "Shadow",
   chars "Alignment", chars "MarginL", chars "MarginR", chars "MarginV", chars "Encoding"]

/-- An ASS event: a line-type tag plus an ordered field map. -/
structure AssEvent : Type where
  event_type : Str
  data : Dict
  deriving DecidableEq, Repr

/-- The canonical event field order `AssEvent.HEADERS`. -/
def EVENT_HEADERS : List Str :=
  [chars "Layer", chars "Start", chars "End", chars "Style", chars "Name",
   chars "MarginL", chars "MarginR", chars "MarginV", chars "Effect", chars "Text"]

/-- `AssStyle.clone`: shallow copy of the field map. -/
def AssStyle.clone (s : AssStyle) : AssStyle := ⟨s.data⟩

/-- `AssEvent.clone`: shallow copy, preserving the event type. -/
def AssEvent.clone (e : AssEvent) : AssEvent := ⟨e.event_type, e.data⟩

/-- `AssEvent.start`: the `Start` field decoded as seconds. -/
def AssEvent.start (e : AssEvent) : Except PyErr ℚ :=
  match pyGet e.data (chars "Start") with
  | .error er => .error er
  | .ok s => asstime_to_float s

/-- `AssEvent.end`: the `End` field decoded as seconds. -/
def AssEvent.stop (e : AssEvent) : Except PyErr ℚ :=
  match pyGet e.data (chars "End") with
  | .error er => .error er
  | .ok s => asstime_to_float s

/-- An ASS document (`class Ass`). -/
structure Ass : Type where
  script_info : Dict
  style_header : List Str
  event_header : List Str
  styles : List AssStyle
  events : List AssEvent
  deriving DecidableEq, Repr

/-- The empty document (`Ass()` with no file). -/
def emptyAss : Ass := ⟨[], [], [], [], []⟩

/-! ## Parser (`Ass.__init__` reading a file) -/

/-- Parser state: current section, pending `Format:` header, document so far. -/
structure PState : Type where
  sect : Option Str
  header : Option (List Str)
  doc : Ass
  deriving DecidableEq, Repr

/-- Process one input line, mirroring the loop body of `Ass.__init__`. -/
def pline (st : PState) (raw : Str) : Except PyErr PState :=
  let line := pyStrip raw
  if line = [] then .ok st
  else if line.head? = some ';' ∨ line.head? = some '#' then .ok st
  else if line.head? = some '[' ∧ line.getLast? = some ']' then
    .ok { st with sect := some (line.drop 1).dropLast, header := none }
  else
    match splitOnFirst ':' line with
    | none => .error (.runtimeError (chars "Invalid line"))
    | some (lt, rest) =>
      if lt = chars "Format" then
        match st.header with
        | some _ => .error (.runtimeError (chars "Did not expect Format"))
        | none =>
          let hdr := (splitAll ',' rest).map pyStrip
          let doc :=
            if st.sect = some (chars "V4+ Styles") then { st.doc with style_header := hdr }
            else if st.sect = some (chars "Events") then { st.doc with event_header := hdr }
            else st.doc
          .ok { st with header := some hdr, doc := doc }
      else if st.sect = some (chars "Script Info") then
        .ok { st with doc :=
          { st.doc with script_info := dinsert lt (pyStrip rest) st.doc.script_info } }
      else if st.sect = some (chars "V4+ Styles") then
        match st.header with
        | none => .error .typeError
        | some hdr =>
            .ok { st with doc := { st.doc with styles := st.doc.styles ++
              [⟨buildDict (hdr.zip ((splitLimit ',' (hdr.length - 1) rest).map pyStrip))⟩] } }
      else if st.sect = some (chars "Events") then
        match st.header with
        | none => .error .typeError
        | some hdr =>
            .ok { st with doc := { st.doc with events := st.doc.events ++
              [⟨lt, buildDict (hdr.zip ((splitLimit ',' (hdr.length - 1) rest).map pyStrip))⟩] } }
      else .ok st

/-- Parse a whole ASS text (`Ass(f)`): fold `pline` over the lines. -/
def parseAss (text : Str) : Except PyErr Ass :=
  match (splitAll '\n' text).foldlM pline ⟨none, none, emptyAss⟩ with
  | .error er => .error er
  | .ok st => .ok st.doc

/-! ## Serializer (`Ass.export`, `AssStyle.__str__`, `AssEvent.__str__`) -/

/-- `AssStyle.__str__`: values joined in the canonical `AssStyle.HEADERS` order. -/
def styleStr (s : AssStyle) : Except PyErr Str :=
  match STYLE_HEADERS.mapM (pyGet s.data) with
  | .error er => .error er
  | .ok vals => .ok (chars "Style: " ++ joinSep [','] vals)

/-- `AssEvent.__str__`: values joined in the canonical `AssEvent.HEADERS` order. -/
def eventStr (e : AssEvent) : Except PyErr Str :=
  match EVENT_HEADERS.mapM (pyGet e.data) with
  | .error er => .error er
  | .ok vals => .ok (e.event_type ++ chars ": " ++ joinSep [','] vals)

/-- The lines emitted by `Ass.export`, in order. -/
def exportLines (a : Ass) : Except PyErr (List Str) :=
  match a.styles.mapM styleStr with
  | .error er => .error er
  | .ok styleLines =>
  match a.events.mapM eventStr with
  | .error er => .error er
  | .ok eventLines =>
  .ok ([chars "[Script Info]"]
    ++ a.script_info.map (fun kv => kv.1 ++ ':' :: ' ' :: kv.2)
    ++ [[]]
    ++ [chars "[V4+ Styles]", chars "Format: " ++ joinSep (chars ", ") a.style_header]
    ++ styleLines
    ++ [[]]
    ++ [chars "[Events]", chars "Format: " ++ joinSep (chars ", ") a.event_header]
    ++ eventLines)

/-- `Ass.export`: the emitted lines joined with newlines. -/
def exportAss (a : Ass) : Except PyErr Str :=
  match exportLines a with
  | .error er => .error er
  | .ok ls => .ok (joinSep ['\n'] ls)

/-- The round-trip `parse(serialize(parse(text)))` of the spec. -/
def reparse (text : Str) : Except PyErr Ass :=
  match parseAss text with
  | .error er => .error er
  | .ok d =>
  match exportAss d with
  | .error er => .error er
  | .ok s => parseAss s

instance {ε α : Type} [DecidableEq ε] [DecidableEq α] : DecidableEq (Except ε α) := fun x y =>
  match x, y with
  | .ok a, .ok b =>
      if h : a = b then .isTrue (by rw [h]) else .isFalse (fun hh => by cases hh; exact h rfl)
  | .error a, .error b =>
      if h : a = b then .isTrue (by rw [h]) else .isFalse (fun hh => by cases hh; exact h rfl)
  | .ok _, .error _ => .isFalse (fun hh => by cases hh)
  | .error _, .ok _ => .isFalse (fun hh => by cases hh)

/-! ## Cross-reference resolver (`resolve_xref`) -/

theorem dlookup_dinsert (k k' : Str) (v : Str) (d : Dict) :
    dlookup k (dinsert k' v d) = if k' = k then some v else dlookup k d := by
  induction d with
  | nil => simp [dinsert, dlookup]
  | cons kv t ih =>
      obtain ⟨k0, v0⟩ := kv
      by_cases h0 : k0 = k'
      · subst h0
        by_cases h1 : k0 = k <;> simp [dinsert, dlookup, h1]
      · by_cases h1 : k0 = k
        · subst h1
          simp [dinsert, dlookup, h0, Ne.symm h0]
        · simp [dinsert, dlookup, h0, h1, ih]

theorem splitOnFirst_mem {sep : Char} : ∀ {l : Str} {p : Str × Str},
    splitOnFirst sep l = some p → sep ∈ l := by
  intro l
  induction l with
  | nil => intro p hp; simp [splitOnFirst] at hp
  | cons c t ih =>
      intro p hp
      by_cases hc : c = sep
      · subst hc; exact List.mem_cons_self _ _
      · rw [splitOnFirst, if_neg hc] at hp
        match hq : splitOnFirst sep t with
        | none => rw [hq] at hp; simp at hp
        | some q => exact List.mem_cons_of_mem _ (ih hq)

/-- Does the event's `Effect` field contain a `!` (i.e. can a reference to it
still be spliced)?  Used only as a termination measure for the scan loop. -/
def hasBang (e : AssEvent) : Bool :=
  match dlookup (chars "Effect") e.data with
  | some eff => '!' ∈ eff
  | none => false

/-- The synthesized replacement lines for one reference event: for each target
event whose `Effect` equals `key`, clone the reference's field map and
overwrite `event_type`, `Name`, `Effect` (cleared) and `Text` from the target. -/
def expandRef (r : AssEvent) (key : Str) : List AssEvent → Except PyErr (List AssEvent)
  | [] => .ok []
  | x :: xs =>
      match pyGet x.data (chars "Effect") with
      | .error er => .error er
      | .ok eff =>
        if eff = key then
          match pyGet x.data (chars "Name") with
          | .error er => .error er
          | .ok nm =>
            match pyGet x.data (chars "Text") with
            | .error er => .error er
            | .ok tx =>
              match expandRef r key xs with
              | .error er => .error er
              | .ok rest =>
                  .ok (⟨x.event_type,
                    dinsert (chars "Text") tx (dinsert (chars "Effect") []
                      (dinsert (chars "Name") nm r.data))⟩ :: rest)
        else expandRef r key xs

/-- Every synthesized replacement line has an empty `Effect`, hence no `!`. -/
theorem expandRef_hasBang {r : AssEvent} {key : Str} :
    ∀ {xs rls : List AssEvent}, expandRef r key xs = .ok rls →
      ∀ x ∈ rls, hasBang x = false := by
  intro xs
  induction xs with
  | nil =>
      intro rls hok x hx
      rw [expandRef] at hok
      cases hok
      simp at hx
  | cons y ys ih =>
      intro rls hok x hx
      rw [expandRef] at hok
      split at hok
      · cases hok
      · split at hok
        · split at hok
          · cases hok
          · split at hok
            · cases hok
            · split at hok
              · cases hok
              · rename_i rest hrest
                cases hok
                rcases List.mem_cons.mp hx with hx0 | hxr
                · subst hx0
                  rw [hasBang, dlookup_dinsert, if_neg (by decide), dlookup_dinsert,
                    if_pos rfl]
                  decide
                · exact ih hrest x hxr
        · exact ih hok x hx

/-- `ref_ass = ass if ref_file == '' else subtitles[ref_file]`: the event list
of the reference's target document (`KeyError` on an unknown identifier). -/
def getRefEvents (subs : List (Str × Ass)) (selfKey : Str) (events : List AssEvent)
    (file : Str) : Except PyErr (List AssEvent) :=
  if file = [] then .ok events
  else if file = selfKey then .ok events
  else
    match subs.lookup file with
    | some a => .ok a.events
    | none => .error (.keyError file)

/-- The `while i < len(ass.events)` scan of `resolve_xref` for one document:
examine the event at index `i`; splice in replacement lines for a reference
event; then advance `i` by one. -/
def resolveLoop (subs : List (Str × Ass)) (selfKey : Str)
    (events : List AssEvent) (i : Nat) : Except PyErr (List AssEvent) :=
  if h : i < events.length then
    let e := events.get ⟨i, h⟩
    match pyGet e.data (chars "Name") with
    | .error er => .error er
    | .ok nm =>
      if hnm : nm = chars "ref" then
        match heff : pyGet e.data (chars "Effect") with
        | .error er => .error er
        | .ok eff =>
          match hsp : splitOnFirst '!' eff with
          | none => .error .valueError
          | some (file, key) =>
            match getRefEvents subs selfKey events file with
            | .error er => .error er
            | .ok refEvents =>
              match hexp : expandRef e key refEvents with
              | .error er => .error er
              | .ok rls =>
                  resolveLoop subs selfKey (events.take i ++ rls ++ events.drop (i + 1)) (i + 1)
      else
        resolveLoop subs selfKey events (i + 1)
  else .ok events
  termination_by ((events.drop i).countP hasBang, events.length - i)
  decreasing_by
  · have hl : dlookup (chars "Effect") e.data = some eff := by
      rw [pyGet] at heff
      split at heff
      · rename_i v hv
        cases heff
        exact hv
      · cases heff
    have hbe : hasBang e = true := by
      simp only [hasBang, hl, decide_eq_true_eq]
      exact splitOnFirst_mem hsp
    have h1 : List.countP hasBang (List.drop i events) =
        List.countP hasBang (List.drop (i + 1) events) + 1 := by
      rw [List.drop_eq_getElem_cons h]
      exact List.countP_cons_of_pos _ _ hbe
    have hlen : (List.take i events).length = i := by
      rw [List.length_take]
      omega
    have hdr : List.drop (i + 1) (List.take i events ++ rls ++ List.drop (i + 1) events)
        = List.drop 1 (rls ++ List.drop (i + 1) events) := by
      rw [List.append_assoc, show i + 1 = (List.take i events).length + 1 by rw [hlen],
        List.drop_append, hlen]
    have hz : List.countP hasBang rls = 0 := by
      rw [List.countP_eq_zero]
      intro a ha
      simp [expandRef_hasBang hexp a ha]
    have h2 : List.countP hasBang
        (List.drop (i + 1) (List.take i events ++ rls ++ List.drop (i + 1) events))
        ≤ List.countP hasBang (List.drop (i + 1) events) := by
      rw [hdr]
      have hle : List.countP hasBang (List.drop 1 (rls ++ List.drop (i + 1) events))
          ≤ List.countP hasBang (rls ++ List.drop (i + 1) events) :=
        (List.drop_sublist _ _).countP_le _
      rw [List.countP_append, hz] at hle
      omega
    exact Prod.Lex.left _ _ (by omega)
  · have hsub : List.countP hasBang (List.drop (i + 1) events)
        ≤ List.countP hasBang (List.drop i events) :=
      (List.drop_sublist_drop_left _ (Nat.le_succ i)).countP_le _
    rcases Nat.lt_or_ge (List.countP hasBang (List.drop (i + 1) events))
        (List.countP hasBang (List.drop i events)) with hlt | hge
    · exact Prod.Lex.left _ _ hlt
    · rw [le_antisymm hsub hge]
      exact Prod.Lex.right _ (by omega)

/-- `resolve_xref`: resolve every document of the collection in order, each
seeing the already-resolved versions of the documents before it. -/
def resolveXrefGo (done : List (Str × Ass)) : List (Str × Ass) → Except PyErr (List (Str × Ass))
  | [] => .ok done
  | (k, a) :: rest =>
      match resolveLoop (done ++ (k, a) :: rest) k a.events 0 with
      | .error er => .error er
      | .ok evs => resolveXrefGo (done ++ [(k, { a with events := evs })]) rest

/-- `resolve_xref(subtitles)`. -/
def resolveXref (subs : List (Str × Ass)) : Except PyErr (List (Str × Ass)) :=
  resolveXrefGo [] subs

/-! ## Specification-side descriptions (closed forms used to state the claims) -/

/-- Is the event a non-reference (its `Name` exists and differs from `ref`)? -/
def nonRefB (e : AssEvent) : Bool :=
  match dlookup (chars "Name") e.data with
  | some nm => decide (nm ≠ chars "ref")
  | none => false

/-- The spec's description of reference expansion: one synthesized event per
target event whose `Effect` equals the key, in target order; each is a clone
of the reference's field map with `eventType`, `Name`, `Text` taken from the
target event and `Effect` cleared. -/
def specRefExpansion (r : AssEvent) (key : Str) (target : List AssEvent) : List AssEvent :=
  target.filterMap (fun x =>
    match dlookup (chars "Effect") x.data with
    | some eff =>
        if eff = key then
          match dlookup (chars "Name") x.data, dlookup (chars "Text") x.data with
          | some nm, some tx =>
              some ⟨x.event_type,
                dinsert (chars "Text") tx (dinsert (chars "Effect") []
                  (dinsert (chars "Name") nm r.data))⟩
          | _, _ => none
        else none
    | none => none)

/-- The spec's event filter for language extraction: Dialogue events (or, for
`ja`, Comment events) whose `Name` is the language code. -/
def specLangKeep (lc : Str) (e : AssEvent) : Bool :=
  (decide (e.event_type = chars "Dialogue") ||
    (decide (e.event_type = chars "Comment") && decide (lc = chars "ja"))) &&
  decide (dlookup (chars "Name") e.data = some lc)

/-- Is the event's `Style` field `TitleEP`? -/
def isTitleEPB (e : AssEvent) : Bool :=
  decide (dlookup (chars "Style") e.data = some (chars "TitleEP"))

/-- The event's decoded start time, if the field exists and parses. -/
def startQ (e : AssEvent) : Option ℚ := e.start.toOption

/-- The event's decoded end time, if the field exists and parses. -/
def stopQ (e : AssEvent) : Option ℚ := e.stop.toOption

/-- Do the two events carry exactly the reference event's `(start, end)` pair? -/
def timesEqQ (r0 e : AssEvent) : Bool :=
  decide (startQ r0 = startQ e) && decide (stopQ r0 = stopQ e)

/-- The spec's "relevant set" for title extraction: the first `TitleEP` event
plus every later `TitleEP` event with exactly the same `(start, end)` pair. -/
def specRelevant : List AssEvent → List AssEvent
  | [] => []
  | e :: es =>
      if isTitleEPB e then e :: es.filter (fun x => isTitleEPB x && timesEqQ e x)
      else specRelevant es

/-- Text of a relevant event provided its `Name` is the language code. -/
def specTextOf (lc : Str) (x : AssEvent) : Option Str :=
  match dlookup (chars "Name") x.data with
  | some nm => if nm = lc then dlookup (chars "Text") x.data else none
  | none => none

/-- The spec's description of `extractTitle`. -/
def specTitleStr (a : Ass) (lc : Str) : Str :=
  joinSep [' '] ((specRelevant a.events).filterMap (specTextOf lc))

/-- The spec's chapter block for one event: present exactly for well-formed
`Comment`/`chapter` events. -/
def specChapterBlock (e : AssEvent) : Option (List Str) :=
  if e.event_type = chars "Comment" ∧ dlookup (chars "Name") e.data = some (chars "chapter")
  then
    match e.start.toOption, e.stop.toOption, dlookup (chars "Text") e.data with
    | some st, some en, some tx =>
        some [chars "[CHAPTER]", chars "TIMEBASE=1/1000",
              chars "START=" ++ intRepr (pyInt (st * 1000)),
              chars "END=" ++ intRepr (pyInt (en * 1000)),
              chars "title=" ++ tx, []]
    | _, _, _ => none
  else none

/-- The spec's description of `generateChapters`. -/
def specChaptersStr (a : Ass) : Str :=
  joinSep ['\n'] (a.events.filterMap specChapterBlock).flatten

/-- A data line for a style in a given field order (total: missing keys
render as empty). -/
def styleLineIn (ord : List Str) (s : AssStyle) : Str :=
  chars "Style: " ++ joinSep [','] (ord.map (fun k => (dlookup k s.data).getD []))

/-- A data line for an event in a given field order (total). -/
def eventLineIn (ord : List Str) (e : AssEvent) : Str :=
  e.event_type ++ chars ": " ++ joinSep [','] (ord.map (fun k => (dlookup k e.data).getD []))

/-- The serializer's output lines with data lines rendered in field order
`sord`/`eord` (total description). -/
def exportLinesIn (sord eord : List Str) (a : Ass) : List Str :=
  [chars "[Script Info]"]
    ++ a.script_info.map (fun kv => kv.1 ++ ':' :: ' ' :: kv.2)
    ++ [[]]
    ++ [chars "[V4+ Styles]", chars "Format: " ++ joinSep (chars ", ") a.style_header]
    ++ a.styles.map (styleLineIn sord)
    ++ [[]]
    ++ [chars "[Events]", chars "Format: " ++ joinSep (chars ", ") a.event_header]
    ++ a.events.map (eventLineIn eord)

/-- The claim's description of `Ass.export`: every data line joined in the
document's own stored field order (the order on its `Format:` lines). -/
def storedOrderExport (a : Ass) : Str :=
  joinSep ['\n'] (exportLinesIn a.style_header a.event_header a)

/-- What the code actually emits: data lines in the canonical header order. -/
def canonOrderExport (a : Ass) : Str :=
  joinSep ['\n'] (exportLinesIn STYLE_HEADERS EVENT_HEADERS a)

/-! ## Well-formedness predicates for round-tripping -/

/-- No newline character. -/
def noLF (l : Str) : Bool := decide ('\n' ∉ l)

/-- Stripping is the identity. -/
def stripInv (l : Str) : Bool := decide (pyStrip l = l)

/-- A character that may not start a data line. -/
def badHead (c : Char) : Bool := c = ';' || c = '#' || c = '[' || pyIsWS c

/-- Well-formedness of one `Script Info` pair for round-tripping. -/
def infoPairWF (kv : Str × Str) : Bool :=
  decide (':' ∉ kv.1) && decide (kv.1 ≠ chars "Format") && noLF kv.1 &&
  (match kv.1.head? with
   | some c => !badHead c
   | none => true) &&
  stripInv kv.2 && noLF kv.2

/-- A comma-free, strip-invariant, newline-free field value. -/
def plainValWF (v : Str) : Bool := decide (',' ∉ v) && stripInv v && noLF v

/-- A strip-invariant, newline-free field value (commas allowed: last column). -/
def lastValWF (v : Str) : Bool := stripInv v && noLF v

/-- Well-formedness of a style record: canonical key shape, parseable values. -/
def styleWF (s : AssStyle) : Bool :=
  decide (s.data.map Prod.fst = STYLE_HEADERS) &&
  ((s.data.map Prod.snd).take 22).all plainValWF &&
  ((s.data.map Prod.snd).drop 22).all lastValWF

/-- Well-formedness of an event record: canonical key shape, parseable values,
admissible event type. -/
def eventWF (e : AssEvent) : Bool :=
  decide (e.data.map Prod.fst = EVENT_HEADERS) &&
  ((e.data.map Prod.snd).take 9).all plainValWF &&
  ((e.data.map Prod.snd).drop 9).all lastValWF &&
  decide (':' ∉ e.event_type) && decide (e.event_type ≠ chars "Format") &&
  noLF e.event_type &&
  (match e.event_type.head? with
   | some c => !badHead c
   | none => true)

/-- A document that round-trips: canonical field orders, well-formed entries,
no duplicate Script Info keys. -/
def docWF (a : Ass) : Bool :=
  decide (a.style_header = STYLE_HEADERS) &&
  decide (a.event_header = EVENT_HEADERS) &&
  a.script_info.all infoPairWF &&
  decide ((a.script_info.map Prod.fst).Nodup) &&
  a.styles.all styleWF &&
  a.events.all eventWF

/-! ## Chapter generation (`generate_chapters`) -/

/-- The flat line list built by the loop of `generate_chapters`. -/
def chapterLines : List AssEvent → Except PyErr (List Str)
  | [] => .ok []
  | e :: es =>
      if e.event_type = chars "Comment" then
        match pyGet e.data (chars "Name") with
        | .error er => .error er
        | .ok nm =>
          if nm = chars "chapter" then
            match e.start with
            | .error er => .error er
            | .ok st =>
              match e.stop with
              | .error er => .error er
              | .ok en =>
                match pyGet e.data (chars "Text") with
                | .error er => .error er
                | .ok tx =>
                  match chapterLines es with
                  | .error er => .error er
                  | .ok rest =>
                      .ok ([chars "[CHAPTER]", chars "TIMEBASE=1/1000",
                            chars "START=" ++ intRepr (pyInt (st * 1000)),
                            chars "END=" ++ intRepr (pyInt (en * 1000)),
                            chars "title=" ++ tx, []] ++ rest)
          else chapterLines es
      else chapterLines es

/-- `generate_chapters(ass)`. -/
def generate_chapters (a : Ass) : Except PyErr Str :=
  match chapterLines a.events with
  | .error er => .error er
  | .ok ls => .ok (joinSep ['\n'] ls)

/-! ## Title extraction (`extract_title`) -/

/-- The `relevant` accumulation loop of `extract_title`: the first `TitleEP`
event is collected; later `TitleEP` events are collected when their
`(start, end)` pair equals the first collected event's pair. -/
def titleScan : List AssEvent → List AssEvent → Except PyErr (List AssEvent)
  | rel, [] => .ok rel
  | [], e :: es =>
      match pyGet e.data (chars "Style") with
      | .error er => .error er
      | .ok sty =>
          if sty = chars "TitleEP" then titleScan [e] es else titleScan [] es
  | r0 :: rs, e :: es =>
      match pyGet e.data (chars "Style") with
      | .error er => .error er
      | .ok sty =>
        if sty = chars "TitleEP" then
          match r0.start with
          | .error er => .error er
          | .ok q1 =>
            match e.start with
            | .error er => .error er
            | .ok q2 =>
              if q1 = q2 then
                match r0.stop with
                | .error er => .error er
                | .ok q3 =>
                  match e.stop with
                  | .error er => .error er
                  | .ok q4 =>
                    if q3 = q4 then titleScan (r0 :: (rs ++ [e])) es
                    else titleScan (r0 :: rs) es
              else titleScan (r0 :: rs) es
        else titleScan (r0 :: rs) es

/-- The final filter-join of `extract_title`: texts of the relevant events
whose `Name` equals the language code. -/
def titleTexts (lc : Str) : List AssEvent → Except PyErr (List Str)
  | [] => .ok []
  | x :: xs =>
      match pyGet x.data (chars "Name") with
      | .error er => .error er
      | .ok nm =>
        if nm = lc then
          match pyGet x.data (chars "Text") with
          | .error er => .error er
          | .ok tx =>
            match titleTexts lc xs with
            | .error er => .error er
            | .ok rest => .ok (tx :: rest)
        else titleTexts lc xs

/-- `extract_title(ass, language_code)`. -/
def extract_title (a : Ass) (lc : Str) : Except PyErr Str :=
  match titleScan [] a.events with
  | .error er => .error er
  | .ok rel =>
  match titleTexts lc rel with
  | .error er => .error er
  | .ok txs => .ok (joinSep [' '] txs)

/-! ## Language extraction (`extract_language`) -/

/-- The event filter of `extract_language`: keep Dialogue events (and, for
Japanese, Comment events) whose `Name` is the language code; clones preserve
order. -/
def langFilter (lc : Str) : List AssEvent → Except PyErr (List AssEvent)
  | [] => .ok []
  | x :: xs =>
      if x.event_type = chars "Dialogue" ∨ (x.event_type = chars "Comment" ∧ lc = chars "ja")
      then
        match pyGet x.data (chars "Name") with
        | .error er => .error er
        | .ok nm =>
          if nm = lc then
            match langFilter lc xs with
            | .error er => .error er
            | .ok rest => .ok (x.clone :: rest)
          else langFilter lc xs
      else langFilter lc xs

/-- `extract_language(ass, language_code)`. -/
def extract_language (a : Ass) (lc : Str) : Except PyErr Ass :=
  match extract_title a lc with
  | .error er => .error er
  | .ok title =>
  match langFilter lc a.events with
  | .error er => .error er
  | .ok evs =>
  .ok
    { script_info := dinsert (chars "Title") title a.script_info
      style_header := STYLE_HEADERS
      event_header := EVENT_HEADERS
      styles := a.styles.map AssStyle.clone
      events := evs }

/-! ## Heap model for the aliasing claim

`extract_language` clones mutable field maps.  To state the aliasing/framing
property we re-run the extraction over an explicit store of dictionary cells:
documents hold cell indices, cloning allocates a fresh cell. -/

/-- A store of mutable dictionary cells. -/
abbrev Store : Type := List Dict

/-- A document whose styles and events reference dictionary cells. -/
structure AssH : Type where
  script_info : Dict
  style_header : List Str
  event_header : List Str
  styles : List Nat
  events : List (Str × Nat)
  deriving DecidableEq, Repr

/-- Read a cell. -/
def cellGet (st : Store) (c : Nat) : Except PyErr Dict :=
  match st.get? c with
  | some d => .ok d
  | none => .error .typeError

/-- Materialize the styles of a heap document (read-only). -/
def stylesOfH (st : Store) (a : AssH) : Except PyErr (List AssStyle) :=
  a.styles.mapM (fun c => (cellGet st c).map AssStyle.mk)

/-- Materialize the events of a heap document (read-only). -/
def eventsOfH (st : Store) (a : AssH) : Except PyErr (List AssEvent) :=
  a.events.mapM (fun tc => (cellGet st tc.2).map (AssEvent.mk tc.1))

/-- Allocate one fresh cell per element (the `.copy()` clones), returning the
grown store and the fresh cell indices. -/
def allocAll (st : Store) : List (Str × Dict) → Store × List (Str × Nat)
  | [] => (st, [])
  | (t, d) :: rest =>
      let c := st.length
      let (st', cs) := allocAll (st ++ [d]) rest
      (st', (t, c) :: cs)

/-- `extract_language` over the store: reads the source through the store,
then allocates fresh cells for every cloned style and kept event. -/
def extract_languageH (st : Store) (a : AssH) (lc : Str) :
    Except PyErr (Store × AssH) :=
  match stylesOfH st a with
  | .error er => .error er
  | .ok stys =>
  match eventsOfH st a with
  | .error er => .error er
  | .ok evs =>
  match extract_title ⟨a.script_info, a.style_header, a.event_header, stys, evs⟩ lc with
  | .error er => .error er
  | .ok title =>
  match langFilter lc evs with
  | .error er => .error er
  | .ok kept =>
  let p1 := allocAll st (stys.map (fun x => ([], x.data)))
  let p2 := allocAll p1.1 (kept.map (fun e => (e.event_type, e.data)))
  .ok (p2.1,
    { script_info := dinsert (chars "Title") title a.script_info
      style_header := STYLE_HEADERS
      event_header := EVENT_HEADERS
      styles := p1.2.map Prod.snd
      events := p2.2 })


/-! ## Concrete documents used by witnesses and counterexamples -/

/-- Concrete document for witnesses: one English dialogue, one Japanese
comment, one Japanese dialogue. -/
def wDoc : Ass :=
  { script_info := [(chars "Title", chars "T")]
    style_header := STYLE_HEADERS
    event_header := EVENT_HEADERS
    styles := []
    events :=
      [⟨chars "Dialogue", [(chars "Style", chars "Default"), (chars "Name", chars "en"),
          (chars "Text", chars "Hello")]⟩,
       ⟨chars "Comment", [(chars "Style", chars "Default"), (chars "Name", chars "ja"),
          (chars "Text", chars "chapter one")]⟩,
       ⟨chars "Dialogue", [(chars "Style", chars "Default"), (chars "Name", chars "ja"),
          (chars "Text", chars "konnichiwa")]⟩] }

/-- The extraction of `ja` from `wDoc`, evaluated. -/
def wOutJa : Ass := (extract_language wDoc (chars "ja")).toOption.getD emptyAss

/-- Concrete chapter document: the spec's `start=65.0, end=125.5` example. -/
def wChap : Ass :=
  { script_info := []
    style_header := STYLE_HEADERS
    event_header := EVENT_HEADERS
    styles := []
    events :=
      [⟨chars "Comment", [(chars "Name", chars "chapter"),
          (chars "Start", chars "0:01:05.00"), (chars "End", chars "0:02:05.50"),
          (chars "Text", chars "Part One")]⟩] }

/-- The spec's `extractTitle` example document: two `TitleEP` events sharing
the `(0, 1)` time pair, named `en` and `ja`. -/
def wTitle : Ass :=
  { script_info := []
    style_header := STYLE_HEADERS
    event_header := EVENT_HEADERS
    styles := []
    events :=
      [⟨chars "Dialogue", [(chars "Style", chars "TitleEP"), (chars "Name", chars "en"),
          (chars "Start", chars "0:00:00.00"), (chars "End", chars "0:00:01.00"),
          (chars "Text", chars "Ep One")]⟩,
       ⟨chars "Dialogue", [(chars "Style", chars "TitleEP"), (chars "Name", chars "ja"),
          (chars "Start", chars "0:00:00.00"), (chars "End", chars "0:00:01.00"),
          (chars "Text", chars "第一話")]⟩] }

def rEv0 : AssEvent :=
  ⟨chars "Dialogue", [(chars "Name", chars "ref"), (chars "Effect", chars "!nomatch")]⟩

def rEv1 : AssEvent :=
  ⟨chars "Dialogue", [(chars "Name", chars "ref"), (chars "Effect", chars "nobang")]⟩

def docC4 : Ass := ⟨[], STYLE_HEADERS, EVENT_HEADERS, [], [rEv0, rEv1]⟩

def subsC4 : List (Str × Ass) := [(chars "ep1", docC4)]

def rC3 : AssEvent :=
  ⟨chars "Dialogue", [(chars "Name", chars "ref"), (chars "Effect", chars "t!intro"),
    (chars "Start", chars "0:00:05.00"), (chars "End", chars "0:00:07.00"),
    (chars "Text", [])]⟩

def tEv1 : AssEvent :=
  ⟨chars "Dialogue", [(chars "Name", chars "en"), (chars "Effect", chars "intro"),
    (chars "Text", chars "Hello")]⟩

def tEv2 : AssEvent :=
  ⟨chars "Dialogue", [(chars "Name", chars "en"), (chars "Effect", chars "intro"),
    (chars "Text", chars "World")]⟩

def subsC3 : List (Str × Ass) :=
  [(chars "t", ⟨[], STYLE_HEADERS, EVENT_HEADERS, [], [tEv1, tEv2]⟩)]

/-- The two synthesized lines for `rC3`, evaluated. -/
def rlsC3 : List AssEvent :=
  (expandRef rC3 (chars "intro") [tEv1, tEv2]).toOption.getD []

def rBadEff : AssEvent :=
  ⟨chars "Dialogue", [(chars "Name", chars "ref"), (chars "Effect", chars "nobang")]⟩

def rBadFile : AssEvent :=
  ⟨chars "Dialogue", [(chars "Name", chars "ref"), (chars "Effect", chars "missing!k")]⟩

def xEvC4 : AssEvent := ⟨chars "Dialogue", []⟩

def rKC4 : AssEvent :=
  ⟨chars "Dialogue", [(chars "Name", chars "ref"), (chars "Effect", chars "t!intro")]⟩

def subsKC4 : List (Str × Ass) :=
  [(chars "t", ⟨[], STYLE_HEADERS, EVENT_HEADERS, [], []⟩)]

def mEv1 : AssEvent :=
  ⟨chars "Dialogue", [(chars "Name", chars "en"), (chars "Effect", chars "intro"),
    (chars "Text", chars "Hello")]⟩

def mEv2 : AssEvent :=
  ⟨chars "Dialogue", [(chars "Name", chars "ref"), (chars "Effect", chars "intro"),
    (chars "Text", chars "World")]⟩

def subsRC4 : List (Str × Ass) :=
  [(chars "t", ⟨[], STYLE_HEADERS, EVENT_HEADERS, [], [mEv1, mEv2]⟩)]

def aC4 : AssEvent :=
  ⟨chars "Dialogue", [(chars "Name", chars "en"), (chars "Effect", []),
    (chars "Text", chars "Hello")]⟩

def bC4 : AssEvent :=
  ⟨chars "Dialogue", [(chars "Name", chars "ref"), (chars "Effect", []),
    (chars "Text", chars "World")]⟩


/-! ## Concrete data for counterexamples and witnesses -/

def permEventHeader : List Str :=
  [chars "Start", chars "Layer", chars "End", chars "Style", chars "Name",
   chars "MarginL", chars "MarginR", chars "MarginV", chars "Effect", chars "Text"]

def evC2 : AssEvent :=
  ⟨chars "Dialogue",
   [(chars "Layer", chars "0"), (chars "Start", chars "0:00:01.00"),
    (chars "End", chars "0:00:02.00"), (chars "Style", chars "Default"),
    (chars "Name", chars "en"), (chars "MarginL", chars "0"),
    (chars "MarginR", chars "0"), (chars "MarginV", chars "0"),
    (chars "Effect", []), (chars "Text", chars "Hello")]⟩

def aC2 : Ass := ⟨[(chars "Title", chars "T")], STYLE_HEADERS, permEventHeader, [], [evC2]⟩
def aC2b : Ass := ⟨[(chars "Title", chars "T")], STYLE_HEADERS, EVENT_HEADERS, [], [evC2]⟩
def stH : Store :=
  [[(chars "Fontname", chars "Arial")],
   [(chars "Style", chars "Default"), (chars "Name", chars "ja"),
    (chars "Text", chars "konnichiwa")]]

def aH : AssH :=
  { script_info := [(chars "Title", chars "T")]
    style_header := STYLE_HEADERS
    event_header := EVENT_HEADERS
    styles := [0]
    events := [(chars "Dialogue", 1)] }

def wOutH : Store × AssH :=
  (extract_languageH stH aH (chars "ja")).toOption.getD ([], ⟨[], [], [], [], []⟩)
def tC1w : Str := chars "[Script Info]\nTitle: T\n\n[V4+ Styles]\nFormat: Name, Fontname, Fontsize, PrimaryColour, SecondaryColour, OutlineColour, BackColour, Bold, Italic, Underline, StrikeOut, ScaleX, ScaleY, Spacing, Angle, BorderStyle, Outline, Shadow, Alignment, MarginL, MarginR, MarginV, Encoding\nStyle: Default,Arial,20,1,2,3,4,0,0,0,0,100,100,0,0,1,2,2,2,10,10,10,1\n\n[Events]\nFormat: Layer, Start, End, Style, Name, MarginL, MarginR, MarginV, Effect, Text\nDialogue: 0,0:00:01.00,0:00:02.00,Default,en,0,0,0,,Hello"

def tC1bad : Str := chars "[V4+ Styles]\nFormat: Name, Fontname, Fontsize, PrimaryColour, SecondaryColour, OutlineColour, BackColour, Bold, Italic, Underline, StrikeOut, ScaleX, ScaleY, Spacing, Angle, BorderStyle, Outline, Shadow, Alignment, MarginL, MarginR, MarginV, Encoding\n[Events]\nFormat: Start, Layer, End, Style, Name, MarginL, MarginR, MarginV, Effect, Text\nDialogue: 0:00:01.00,0,0:00:02.00,Default,en,0,0,0,,Hello"

/-! # Theorems -/



/-! ## Generic inversion helpers -/

theorem dv0 : digitVal '0' = some 0 := by decide

theorem dv1 : digitVal '1' = some 1 := by decide

theorem dv2 : digitVal '2' = some 2 := by decide

theorem dv3 : digitVal '3' = some 3 := by decide

theorem dv4 : digitVal '4' = some 4 := by decide

theorem dv5 : digitVal '5' = some 5 := by decide

theorem dv6 : digitVal '6' = some 6 := by decide

theorem dv7 : digitVal '7' = some 7 := by decide

theorem dv8 : digitVal '8' = some 8 := by decide

theorem dv9 : digitVal '9' = some 9 := by decide

theorem pyGet_ok {d : Dict} {k v : Str} : pyGet d k = .ok v ↔ dlookup k d = some v := by
  rw [pyGet]
  rcases h : dlookup k d with _ | w <;> simp

theorem eventCloneEq (e : AssEvent) : e.clone = e := rfl

theorem styleCloneEq (s : AssStyle) : s.clone = s := rfl

/-! ## Language extraction -/

theorem langFilter_ok {lc : Str} :
    ∀ {xs evs : List AssEvent}, langFilter lc xs = .ok evs →
      evs = xs.filter (specLangKeep lc) := by
  intro xs
  induction xs with
  | nil =>
      intro evs h
      rw [langFilter] at h
      cases h
      rfl
  | cons x xs ih =>
      intro evs h
      rw [langFilter] at h
      split at h
      · rename_i hc
        split at h
        · cases h
        · rename_i nm hnm
          rw [pyGet_ok] at hnm
          split at h
          · rename_i hnl
            split at h
            · cases h
            · rename_i rest hrest
              cases h
              have hk : specLangKeep lc x = true := by
                subst hnl
                rw [specLangKeep]
                simp only [hnm, decide_True, Bool.and_true]
                rcases hc with h1 | h2
                · simp [h1]
                · simp [h2.1, h2.2]
              rw [List.filter_cons_of_pos hk, eventCloneEq, ih hrest]
          · rename_i hnl
            have hk : specLangKeep lc x = false := by
              simp [specLangKeep, hnm, hnl]
            rw [List.filter_cons_of_neg (by simp [hk]), ih h]
      · rename_i hc
        have hk : specLangKeep lc x = false := by
          push_neg at hc
          by_cases hcm : x.event_type = chars "Comment"
          · simp [specLangKeep, hc.1, hcm, hc.2 hcm]
            exact fun hcd => absurd hcd (by decide)
          · simp [specLangKeep, hc.1, hcm]
        rw [List.filter_cons_of_neg (by simp [hk]), ih h]

/-- C5: `extract_language` keeps exactly the clones, in order, of the source
events with the right `Name` and admissible event type; `en` drops all
Comment events, `ja` keeps `ja`-named Comment events. -/
theorem extract_language_events (a : Ass) (lc : Str) (out : Ass)
    (h : extract_language a lc = .ok out) :
    out.events = a.events.filter (specLangKeep lc) ∧
    (lc = chars "en" → ∀ e ∈ out.events, e.event_type ≠ chars "Comment") ∧
    (lc = chars "ja" → ∀ e ∈ a.events, e.event_type = chars "Comment" →
      dlookup (chars "Name") e.data = some (chars "ja") → e ∈ out.events) := by
  rw [extract_language] at h
  split at h
  · cases h
  split at h
  · cases h
  rename_i title htitle evs hf
  cases h
  have hev : evs = a.events.filter (specLangKeep lc) := langFilter_ok hf
  refine ⟨hev, ?_, ?_⟩
  · intro hen e he hcom
    have hme : e ∈ evs := he
    rw [hev] at hme
    have := List.of_mem_filter hme
    rw [specLangKeep, hcom, hen] at this
    simp [chars] at this
  · intro hja e he hcom hnm
    show e ∈ evs
    rw [hev]
    refine List.mem_filter.mpr ⟨he, ?_⟩
    rw [specLangKeep, hcom, hja, hnm]
    simp

theorem extract_language_events_witness :
    wOutJa.events = wDoc.events.filter (specLangKeep (chars "ja")) ∧
    (chars "ja" = chars "en" → ∀ e ∈ wOutJa.events, e.event_type ≠ chars "Comment") ∧
    (chars "ja" = chars "ja" → ∀ e ∈ wDoc.events, e.event_type = chars "Comment" →
      dlookup (chars "Name") e.data = some (chars "ja") → e ∈ wOutJa.events) :=
  extract_language_events wDoc (chars "ja") wOutJa (by decide)

/-! ## Chapter generation -/

theorem chapterLines_ok :
    ∀ {es : List AssEvent} {ls : List Str}, chapterLines es = .ok ls →
      ls = (es.filterMap specChapterBlock).flatten := by
  intro es
  induction es with
  | nil =>
      intro ls h
      rw [chapterLines] at h
      cases h
      rfl
  | cons e es ih =>
      intro ls h
      rw [chapterLines] at h
      split at h
      · rename_i hcm
        split at h
        · cases h
        · rename_i nm hnm
          rw [pyGet_ok] at hnm
          split at h
          · rename_i hch
            split at h
            · cases h
            · rename_i st hst
              split at h
              · cases h
              · rename_i en hen
                split at h
                · cases h
                · rename_i tx htx
                  rw [pyGet_ok] at htx
                  split at h
                  · cases h
                  · rename_i rest hrest
                    cases h
                    subst hch
                    have hb : specChapterBlock e = some
                        [chars "[CHAPTER]", chars "TIMEBASE=1/1000",
                         chars "START=" ++ intRepr (pyInt (st * 1000)),
                         chars "END=" ++ intRepr (pyInt (en * 1000)),
                         chars "title=" ++ tx, []] := by
                      rw [specChapterBlock, if_pos ⟨hcm, hnm⟩]
                      simp [hst, hen, htx, Except.toOption]
                    rw [List.filterMap_cons_some hb, List.flatten_cons, ih hrest]
          · rename_i hch
            have hb : specChapterBlock e = none := by
              rw [specChapterBlock, if_neg]
              rintro ⟨_, h2⟩
              rw [hnm] at h2
              exact hch (by cases h2; rfl)
            rw [List.filterMap_cons_none hb, ih h]
      · rename_i hcm
        have hb : specChapterBlock e = none := by
          rw [specChapterBlock, if_neg]
          rintro ⟨h1, _⟩
          exact hcm h1
        rw [List.filterMap_cons_none hb, ih h]

/-- C7: `generate_chapters` emits, in event order, one
`[CHAPTER]/TIMEBASE/START/END/title/blank` block per Comment event named
`chapter`, with times multiplied by 1000 and truncated to integers. -/
theorem generate_chapters_spec (a : Ass) (s : Str) (h : generate_chapters a = .ok s) :
    s = specChaptersStr a := by
  rw [generate_chapters] at h
  split at h
  · cases h
  · rename_i ls hls
    cases h
    rw [specChaptersStr, chapterLines_ok hls]

theorem tp1 : asstime_to_float (chars "0:01:05.00") = .ok 65 := by
  norm_num +decide [asstime_to_float, chars, splitLimit, splitOnFirst, parseFloat,
    parseNat, parseNatAux, dv0, dv1, dv5, splitAll]

theorem tp2 : asstime_to_float (chars "0:02:05.50") = .ok (251/2 : ℚ) := by
  norm_num +decide [asstime_to_float, chars, splitLimit, splitOnFirst, parseFloat,
    parseNat, parseNatAux, dv0, dv2, dv5, splitAll]

theorem tp3 : intRepr (pyInt ((65 : ℚ) * 1000)) = chars "65000" := by
  have h1 : pyInt ((65 : ℚ) * 1000) = 65000 := by norm_num [pyInt]
  rw [h1]
  simp +decide [intRepr, natToDigits, chars]

theorem tp4 : intRepr (pyInt ((251 / 2 : ℚ) * 1000)) = chars "125500" := by
  have h1 : pyInt ((251 / 2 : ℚ) * 1000) = 125500 := by norm_num [pyInt]
  rw [h1]
  simp +decide [intRepr, natToDigits, chars]

theorem gcw : generate_chapters wChap =
    .ok (chars "[CHAPTER]\nTIMEBASE=1/1000\nSTART=65000\nEND=125500\ntitle=Part One\n") := by
  simp +decide [generate_chapters, chapterLines, wChap, pyGet, dlookup, AssEvent.start,
    AssEvent.stop, tp1, tp2, tp3, tp4, joinSep]

theorem generate_chapters_spec_witness :
    chars "[CHAPTER]\nTIMEBASE=1/1000\nSTART=65000\nEND=125500\ntitle=Part One\n" =
      specChaptersStr wChap :=
  generate_chapters_spec wChap _ gcw

/-! ## Title extraction -/

theorem titleTexts_ok {lc : Str} :
    ∀ {rel : List AssEvent} {txs : List Str}, titleTexts lc rel = .ok txs →
      txs = rel.filterMap (specTextOf lc) := by
  intro rel
  induction rel with
  | nil =>
      intro txs h
      rw [titleTexts] at h
      cases h
      rfl
  | cons x xs ih =>
      intro txs h
      rw [titleTexts] at h
      split at h
      · cases h
      · rename_i nm hnm
        rw [pyGet_ok] at hnm
        split at h
        · rename_i hnl
          split at h
          · cases h
          · rename_i tx htx
            rw [pyGet_ok] at htx
            split at h
            · cases h
            · rename_i rest hrest
              cases h
              have hb : specTextOf lc x = some tx := by
                simp only [specTextOf, hnm]
                rw [if_pos hnl, htx]
              rw [List.filterMap_cons_some hb, ih hrest]
        · rename_i hnl
          have hb : specTextOf lc x = none := by
            simp only [specTextOf, hnm]
            rw [if_neg hnl]
          rw [List.filterMap_cons_none hb, ih h]

theorem titleScan_cons {r0 : AssEvent} :
    ∀ {es : List AssEvent} {rs rel : List AssEvent},
      titleScan (r0 :: rs) es = .ok rel →
      rel = (r0 :: rs) ++ es.filter (fun x => isTitleEPB x && timesEqQ r0 x) := by
  intro es
  induction es with
  | nil =>
      intro rs rel h
      rw [titleScan] at h
      cases h
      simp
  | cons e es ih =>
      intro rs rel h
      rw [titleScan] at h
      split at h
      · cases h
      · rename_i sty hsty
        rw [pyGet_ok] at hsty
        by_cases hT : sty = chars "TitleEP"
        · rw [if_pos hT] at h
          subst hT
          have hTB : isTitleEPB e = true := by
            rw [isTitleEPB]
            simp [hsty]
          split at h
          · cases h
          · rename_i q1 hq1
            split at h
            · cases h
            · rename_i q2 hq2
              by_cases hq12 : q1 = q2
              · rw [if_pos hq12] at h
                split at h
                · cases h
                · rename_i q3 hq3
                  split at h
                  · cases h
                  · rename_i q4 hq4
                    by_cases hq34 : q3 = q4
                    · rw [if_pos hq34] at h
                      have hTE : timesEqQ r0 e = true := by
                        rw [timesEqQ, startQ, stopQ, startQ, stopQ, hq1, hq2, hq3, hq4]
                        simp [Except.toOption, hq12, hq34]
                      rw [List.filter_cons_of_pos (by simp [hTB, hTE]), ih h]
                      simp
                    · rw [if_neg hq34] at h
                      have hTE : timesEqQ r0 e = false := by
                        rw [timesEqQ, startQ, stopQ, startQ, stopQ, hq1, hq2, hq3, hq4]
                        simp [Except.toOption, hq34]
                      rw [List.filter_cons_of_neg (by simp [hTB, hTE]), ih h]
              · rw [if_neg hq12] at h
                have hTE : timesEqQ r0 e = false := by
                  rw [timesEqQ, startQ, startQ, hq1, hq2]
                  simp [Except.toOption, hq12]
                rw [List.filter_cons_of_neg (by simp [hTB, hTE]), ih h]
        · rw [if_neg hT] at h
          have hTB : isTitleEPB e = false := by
            simp [isTitleEPB, hsty]
            exact hT
          rw [List.filter_cons_of_neg (by simp [hTB]), ih h]

theorem titleScan_nil :
    ∀ {es rel : List AssEvent}, titleScan [] es = .ok rel → rel = specRelevant es := by
  intro es
  induction es with
  | nil =>
      intro rel h
      rw [titleScan] at h
      cases h
      rfl
  | cons e es ih =>
      intro rel h
      rw [titleScan] at h
      split at h
      · cases h
      · rename_i sty hsty
        rw [pyGet_ok] at hsty
        by_cases hT : sty = chars "TitleEP"
        · rw [if_pos hT] at h
          subst hT
          have hTB : isTitleEPB e = true := by
            rw [isTitleEPB]
            simp [hsty]
          rw [titleScan_cons h, specRelevant, if_pos hTB]
          rfl
        · rw [if_neg hT] at h
          have hTB : isTitleEPB e = false := by
            simp [isTitleEPB, hsty]
            exact hT
          rw [specRelevant, if_neg (by simp [hTB]), ih h]

/-- C6: `extract_title` collects the first `TitleEP` event and every later
`TitleEP` event with exactly the first one's `(start, end)` pair, then joins
with single spaces the `Text` of those whose `Name` is the language code. -/
theorem extract_title_spec (a : Ass) (lc : Str) (s : Str)
    (h : extract_title a lc = .ok s) : s = specTitleStr a lc := by
  rw [extract_title] at h
  split at h
  · cases h
  · rename_i rel hrel
    split at h
    · cases h
    · rename_i txs htxs
      cases h
      rw [specTitleStr, ← titleScan_nil hrel, titleTexts_ok htxs]

theorem tp5 : asstime_to_float (chars "0:00:00.00") = .ok 0 := by
  norm_num +decide [asstime_to_float, chars, splitLimit, splitOnFirst, parseFloat,
    parseNat, parseNatAux, dv0, splitAll]

theorem tp6 : asstime_to_float (chars "0:00:01.00") = .ok 1 := by
  norm_num +decide [asstime_to_float, chars, splitLimit, splitOnFirst, parseFloat,
    parseNat, parseNatAux, dv0, dv1, splitAll]

theorem etw : extract_title wTitle (chars "en") = .ok (chars "Ep One") := by
  simp +decide [extract_title, titleScan, titleTexts, wTitle, pyGet, dlookup,
    AssEvent.start, AssEvent.stop, tp5, tp6, joinSep]

theorem extract_title_spec_witness :
    chars "Ep One" = specTitleStr wTitle (chars "en") :=
  extract_title_spec wTitle (chars "en") _ etw

theorem resolveLoop_stop {subs : List (Str × Ass)} {k : Str} {events : List AssEvent} {i : Nat}
    (h : events.length ≤ i) : resolveLoop subs k events i = .ok events := by
  rw [resolveLoop]
  rw [dif_neg (by omega)]

theorem nonRefB_iff {e : AssEvent} : nonRefB e = true ↔
    ∃ nm, dlookup (chars "Name") e.data = some nm ∧ nm ≠ chars "ref" := by
  rw [nonRefB]
  rcases h : dlookup (chars "Name") e.data with _ | nm <;> simp

theorem resolveLoop_step_nonref {subs : List (Str × Ass)} {k : Str}
    {events : List AssEvent} {i : Nat} (h : i < events.length)
    (hn : nonRefB (events.get ⟨i, h⟩) = true) :
    resolveLoop subs k events i = resolveLoop subs k events (i + 1) := by
  obtain ⟨nm, hl, hne⟩ := nonRefB_iff.mp hn
  rw [resolveLoop, dif_pos h]
  simp only [show pyGet (events.get ⟨i, h⟩).data (chars "Name") = .ok nm from pyGet_ok.mpr hl]
  rw [dif_neg hne]

theorem resolveLoop_step_ref {subs : List (Str × Ass)} {k : Str}
    {events : List AssEvent} {i : Nat} (h : i < events.length)
    {eff file key : Str} {target rls : List AssEvent}
    (hnm : dlookup (chars "Name") (events.get ⟨i, h⟩).data = some (chars "ref"))
    (heff : dlookup (chars "Effect") (events.get ⟨i, h⟩).data = some eff)
    (hsp : splitOnFirst '!' eff = some (file, key))
    (hget : getRefEvents subs k events file = .ok target)
    (hexp : expandRef (events.get ⟨i, h⟩) key target = .ok rls) :
    resolveLoop subs k events i =
      resolveLoop subs k (events.take i ++ rls ++ events.drop (i + 1)) (i + 1) := by
  have h1 : pyGet (events.get ⟨i, h⟩).data (chars "Name") = .ok (chars "ref") :=
    pyGet_ok.mpr hnm
  have h2 : pyGet (events.get ⟨i, h⟩).data (chars "Effect") = .ok eff :=
    pyGet_ok.mpr heff
  have hrun : resolveLoop subs k events i = resolveLoop subs k events i := rfl
  conv_lhs at hrun =>
    rw [resolveLoop, dif_pos h]
    zeta
  split at hrun
  · rename_i er he
    rw [he] at h1
    cases h1
  · rename_i nm he
    rw [he] at h1
    cases h1
    rw [dif_pos rfl] at hrun
    split at hrun
    · rename_i er he'
      rw [he'] at h2
      cases h2
    · rename_i eff' he'
      rw [he'] at h2
      cases h2
      split at hrun
      · rename_i hsp'
        rw [hsp'] at hsp
        cases hsp
      · rename_i file' key' hsp'
        rw [hsp'] at hsp
        cases hsp
        split at hrun
        · rename_i er hg
          rw [hg] at hget
          cases hget
        · rename_i target' hg
          rw [hg] at hget
          cases hget
          split at hrun
          · rename_i er hx
            rw [hx] at hexp
            cases hexp
          · rename_i rls' hx
            rw [hx] at hexp
            cases hexp
            exact hrun.symm

theorem resolveLoop_ref_nobang {subs : List (Str × Ass)} {k : Str}
    {events : List AssEvent} {i : Nat} (h : i < events.length) {eff : Str}
    (hnm : dlookup (chars "Name") (events.get ⟨i, h⟩).data = some (chars "ref"))
    (heff : dlookup (chars "Effect") (events.get ⟨i, h⟩).data = some eff)
    (hsp : splitOnFirst '!' eff = none) :
    resolveLoop subs k events i = .error .valueError := by
  have h1 : pyGet (events.get ⟨i, h⟩).data (chars "Name") = .ok (chars "ref") :=
    pyGet_ok.mpr hnm
  have h2 : pyGet (events.get ⟨i, h⟩).data (chars "Effect") = .ok eff :=
    pyGet_ok.mpr heff
  have hrun : resolveLoop subs k events i = resolveLoop subs k events i := rfl
  conv_lhs at hrun =>
    rw [resolveLoop, dif_pos h]
    zeta
  split at hrun
  · rename_i er he
    rw [he] at h1
    cases h1
  · rename_i nm he
    rw [he] at h1
    cases h1
    rw [dif_pos rfl] at hrun
    split at hrun
    · rename_i er he'
      rw [he'] at h2
      cases h2
    · rename_i eff' he'
      rw [he'] at h2
      cases h2
      split at hrun
      · exact hrun.symm
      · rename_i file' key' hsp'
        rw [hsp'] at hsp
        cases hsp

theorem resolveLoop_ref_geterr {subs : List (Str × Ass)} {k : Str}
    {events : List AssEvent} {i : Nat} (h : i < events.length)
    {eff file key : Str} {er0 : PyErr}
    (hnm : dlookup (chars "Name") (events.get ⟨i, h⟩).data = some (chars "ref"))
    (heff : dlookup (chars "Effect") (events.get ⟨i, h⟩).data = some eff)
    (hsp : splitOnFirst '!' eff = some (file, key))
    (hget : getRefEvents subs k events file = .error er0) :
    resolveLoop subs k events i = .error er0 := by
  have h1 : pyGet (events.get ⟨i, h⟩).data (chars "Name") = .ok (chars "ref") :=
    pyGet_ok.mpr hnm
  have h2 : pyGet (events.get ⟨i, h⟩).data (chars "Effect") = .ok eff :=
    pyGet_ok.mpr heff
  have hrun : resolveLoop subs k events i = resolveLoop subs k events i := rfl
  conv_lhs at hrun =>
    rw [resolveLoop, dif_pos h]
    zeta
  split at hrun
  · rename_i er he
    rw [he] at h1
    cases h1
  · rename_i nm he
    rw [he] at h1
    cases h1
    rw [dif_pos rfl] at hrun
    split at hrun
    · rename_i er he'
      rw [he'] at h2
      cases h2
    · rename_i eff' he'
      rw [he'] at h2
      cases h2
      split at hrun
      · rename_i hsp'
        rw [hsp'] at hsp
        cases hsp
      · rename_i file' key' hsp'
        rw [hsp'] at hsp
        cases hsp
        split at hrun
        · rename_i er hg
          rw [hg] at hget
          cases hget
          exact hrun.symm
        · rename_i target' hg
          rw [hg] at hget
          cases hget

theorem resolveLoop_pass {subs : List (Str × Ass)} {k : Str} :
    ∀ (n : Nat) {events : List AssEvent} {i : Nat}, events.length - i ≤ n →
      (∀ e ∈ events.drop i, nonRefB e = true) →
      resolveLoop subs k events i = .ok events := by
  intro n
  induction n with
  | zero =>
      intro events i hn hall
      exact resolveLoop_stop (by omega)
  | succ n ih =>
      intro events i hn hall
      by_cases h : i < events.length
      · have he : events.get ⟨i, h⟩ ∈ events.drop i := by
          rw [List.drop_eq_getElem_cons h]
          exact List.mem_cons_self _ _
        rw [resolveLoop_step_nonref h (hall _ he)]
        exact ih (by omega) (fun e hx =>
          hall e ((List.drop_sublist_drop_left events (Nat.le_succ i)).subset hx))
      · exact resolveLoop_stop (by omega)

theorem resolveLoop_advance {subs : List (Str × Ass)} {k : Str} :
    ∀ (mid : List AssEvent) (done rest : List AssEvent),
      (∀ e ∈ mid, nonRefB e = true) →
      resolveLoop subs k (done ++ mid ++ rest) done.length =
        resolveLoop subs k (done ++ mid ++ rest) (done.length + mid.length) := by
  intro mid
  induction mid with
  | nil => simp
  | cons m mid ih =>
      intro done rest hall
      have hlen : done.length < (done ++ (m :: mid) ++ rest).length := by
        simp
      have hget : (done ++ (m :: mid) ++ rest).get ⟨done.length, hlen⟩ = m := by
        rw [List.get_eq_getElem]
        rw [List.getElem_append_left (by simp)]
        rw [List.getElem_append_right (Nat.le_refl _)]
        simp
      rw [resolveLoop_step_nonref hlen (by rw [hget]; exact hall m (List.mem_cons_self _ _))]
      have h2 := ih (done ++ [m]) rest (fun e he => hall e (List.mem_cons_of_mem _ he))
      have heq : (done ++ [m]) ++ mid ++ rest = done ++ (m :: mid) ++ rest := by simp
      rw [heq] at h2
      simp only [List.length_append, List.length_cons, List.length_nil] at h2 ⊢
      rw [show done.length + 1 = done.length + 1 + 0 by omega] at h2
      rw [show done.length + (mid.length + 1) = done.length + 1 + mid.length by omega]
      rw [show done.length + 1 + 0 + mid.length = done.length + 1 + mid.length by omega] at h2
      exact h2

theorem expandRef_ok_spec {r : AssEvent} {key : Str} :
    ∀ {xs rls : List AssEvent}, expandRef r key xs = .ok rls →
      rls = specRefExpansion r key xs := by
  intro xs
  induction xs with
  | nil =>
      intro rls h
      rw [expandRef] at h
      cases h
      rfl
  | cons y ys ih =>
      intro rls h
      rw [expandRef] at h
      split at h
      · cases h
      · rename_i eff hg
        rw [pyGet_ok] at hg
        by_cases he : eff = key
        · rw [if_pos he] at h
          subst he
          split at h
          · cases h
          · rename_i nm hn
            rw [pyGet_ok] at hn
            split at h
            · cases h
            · rename_i tx ht
              rw [pyGet_ok] at ht
              split at h
              · cases h
              · rename_i rest hr
                cases h
                rw [specRefExpansion, List.filterMap_cons]
                simp only [hg, hn, ht, eq_self_iff_true, if_true]
                rw [ih hr]
                rfl
        · rw [if_neg he] at h
          rw [specRefExpansion, List.filterMap_cons]
          simp only [hg]
          rw [if_neg he]
          exact (ih h).trans rfl

theorem expandRef_effect {r : AssEvent} {key : Str} :
    ∀ {xs rls : List AssEvent}, expandRef r key xs = .ok rls →
      ∀ x ∈ rls, dlookup (chars "Effect") x.data = some [] := by
  intro xs
  induction xs with
  | nil =>
      intro rls h x hx
      rw [expandRef] at h
      cases h
      simp at hx
  | cons y ys ih =>
      intro rls h x hx
      rw [expandRef] at h
      split at h
      · cases h
      · split at h
        · split at h
          · cases h
          · split at h
            · cases h
            · split at h
              · cases h
              · rename_i rest hrest
                cases h
                rcases List.mem_cons.mp hx with hx0 | hxr
                · subst hx0
                  rw [dlookup_dinsert, if_neg (by decide), dlookup_dinsert, if_pos rfl]
                · exact ih hrest x hxr
        · exact ih h x hx

theorem resolve_xref_expansion (subs : List (Str × Ass)) (selfKey : Str)
    (pre post target rls : List AssEvent) (r : AssEvent) (eff file key : Str)
    (hpre : ∀ e ∈ pre, nonRefB e = true)
    (hpost : ∀ e ∈ post, nonRefB e = true)
    (hr : dlookup (chars "Name") r.data = some (chars "ref"))
    (heff : dlookup (chars "Effect") r.data = some eff)
    (hsp : splitOnFirst '!' eff = some (file, key))
    (hget : getRefEvents subs selfKey (pre ++ r :: post) file = .ok target)
    (hexp : expandRef r key target = .ok rls)
    (hrls : ∀ x ∈ rls, nonRefB x = true) :
    resolveLoop subs selfKey (pre ++ r :: post) 0 = .ok (pre ++ rls ++ post) ∧
    rls = specRefExpansion r key target := by
  have hlen : pre.length < (pre ++ r :: post).length := by simp
  have hgetr : (pre ++ r :: post).get ⟨pre.length, hlen⟩ = r := by
    rw [List.get_eq_getElem, List.getElem_append_right (Nat.le_refl _)]
    simp
  have htake : (pre ++ r :: post).take pre.length = pre := List.take_left pre _
  have hdrop : (pre ++ r :: post).drop (pre.length + 1) = post := by
    rw [List.drop_append 1]
    rfl
  have hstep := resolveLoop_step_ref hlen
    (by rw [hgetr]; exact hr) (by rw [hgetr]; exact heff) hsp hget
    (by rw [hgetr]; exact hexp)
  rw [htake, hdrop] at hstep
  have hpass : resolveLoop subs selfKey (pre ++ rls ++ post) (pre.length + 1) =
      .ok (pre ++ rls ++ post) := by
    refine resolveLoop_pass (pre ++ rls ++ post).length (by omega) ?_
    intro e he
    have h1 : (pre ++ rls ++ post).drop (pre.length + 1) = (rls ++ post).drop 1 := by
      rw [List.append_assoc, List.drop_append 1]
    rw [h1] at he
    have h2 := (List.drop_sublist _ _).subset he
    rcases List.mem_append.mp h2 with h3 | h3
    exacts [hrls e h3, hpost e h3]
  constructor
  · calc resolveLoop subs selfKey (pre ++ r :: post) 0
        = resolveLoop subs selfKey (pre ++ r :: post) pre.length := by
          simpa using resolveLoop_advance pre [] (r :: post) hpre
      _ = resolveLoop subs selfKey (pre ++ rls ++ post) (pre.length + 1) := hstep
      _ = .ok (pre ++ rls ++ post) := hpass
  · exact expandRef_ok_spec hexp

theorem resolve_xref_ref_errors (subs : List (Str × Ass)) (selfKey : Str)
    (pre post : List AssEvent) (r : AssEvent) (eff : Str)
    (hpre : ∀ e ∈ pre, nonRefB e = true)
    (hr : dlookup (chars "Name") r.data = some (chars "ref"))
    (heff : dlookup (chars "Effect") r.data = some eff) :
    (splitOnFirst '!' eff = none →
      resolveLoop subs selfKey (pre ++ r :: post) 0 = .error .valueError) ∧
    (∀ file key, splitOnFirst '!' eff = some (file, key) → file ≠ [] → file ≠ selfKey →
      subs.lookup file = none →
      resolveLoop subs selfKey (pre ++ r :: post) 0 = .error (.keyError file)) := by
  have hlen : pre.length < (pre ++ r :: post).length := by simp
  have hgetr : (pre ++ r :: post).get ⟨pre.length, hlen⟩ = r := by
    rw [List.get_eq_getElem, List.getElem_append_right (Nat.le_refl _)]
    simp
  have hadv : resolveLoop subs selfKey (pre ++ r :: post) 0 =
      resolveLoop subs selfKey (pre ++ r :: post) pre.length := by
    simpa using resolveLoop_advance pre [] (r :: post) hpre
  constructor
  · intro hnone
    rw [hadv]
    exact resolveLoop_ref_nobang hlen (by rw [hgetr]; exact hr)
      (by rw [hgetr]; exact heff) hnone
  · intro file key hs hne hnk hnl
    rw [hadv]
    refine resolveLoop_ref_geterr hlen (by rw [hgetr]; exact hr)
      (by rw [hgetr]; exact heff) hs ?_
    rw [getRefEvents, if_neg hne, if_neg hnk, hnl]

theorem resolve_xref_index_skip_rescan (subs : List (Str × Ass)) (selfKey : Str) :
    (∀ (pre post target : List AssEvent) (x r : AssEvent) (eff file key : Str),
      (∀ e ∈ pre, nonRefB e = true) → (∀ e ∈ post, nonRefB e = true) →
      dlookup (chars "Name") r.data = some (chars "ref") →
      dlookup (chars "Effect") r.data = some eff →
      splitOnFirst '!' eff = some (file, key) →
      getRefEvents subs selfKey (pre ++ r :: x :: post) file = .ok target →
      expandRef r key target = .ok [] →
      resolveLoop subs selfKey (pre ++ r :: x :: post) 0 = .ok (pre ++ x :: post)) ∧
    (∀ (pre target rls' : List AssEvent) (a b r : AssEvent) (eff file key : Str),
      (∀ e ∈ pre, nonRefB e = true) →
      dlookup (chars "Name") r.data = some (chars "ref") →
      dlookup (chars "Effect") r.data = some eff →
      splitOnFirst '!' eff = some (file, key) →
      getRefEvents subs selfKey (pre ++ [r]) file = .ok target →
      expandRef r key target = .ok (a :: b :: rls') →
      dlookup (chars "Name") b.data = some (chars "ref") →
      resolveLoop subs selfKey (pre ++ [r]) 0 = .error .valueError) := by
  constructor
  · intro pre post target x r eff file key hpre hpost hr heff hsp hget hexp
    have hlen : pre.length < (pre ++ r :: x :: post).length := by simp
    have hgetr : (pre ++ r :: x :: post).get ⟨pre.length, hlen⟩ = r := by
      rw [List.get_eq_getElem, List.getElem_append_right (Nat.le_refl _)]
      simp
    have htake : (pre ++ r :: x :: post).take pre.length = pre := List.take_left pre _
    have hdrop : (pre ++ r :: x :: post).drop (pre.length + 1) = x :: post := by
      rw [List.drop_append 1]
      rfl
    have hstep := resolveLoop_step_ref hlen
      (by rw [hgetr]; exact hr) (by rw [hgetr]; exact heff) hsp hget
      (by rw [hgetr]; exact hexp)
    rw [htake, hdrop] at hstep
    simp only [List.append_nil] at hstep
    have hpass : resolveLoop subs selfKey (pre ++ x :: post) (pre.length + 1) =
        .ok (pre ++ x :: post) := by
      refine resolveLoop_pass (pre ++ x :: post).length (by omega) ?_
      intro e he
      have h1 : (pre ++ x :: post).drop (pre.length + 1) = post := by
        rw [List.drop_append 1]
        rfl
      rw [h1] at he
      exact hpost e he
    calc resolveLoop subs selfKey (pre ++ r :: x :: post) 0
        = resolveLoop subs selfKey (pre ++ r :: x :: post) pre.length := by
          simpa using resolveLoop_advance pre [] (r :: x :: post) hpre
      _ = resolveLoop subs selfKey (pre ++ x :: post) (pre.length + 1) := hstep
      _ = .ok (pre ++ x :: post) := hpass
  · intro pre target rls' a b r eff file key hpre hr heff hsp hget hexp hbname
    have hlen : pre.length < (pre ++ [r]).length := by simp
    have hgetr : (pre ++ [r]).get ⟨pre.length, hlen⟩ = r := by
      rw [List.get_eq_getElem, List.getElem_append_right (Nat.le_refl _)]
      simp
    have htake : (pre ++ [r]).take pre.length = pre := List.take_left pre _
    have hdrop : (pre ++ [r]).drop (pre.length + 1) = [] := by
      rw [List.drop_append 1]
      rfl
    have hstep := resolveLoop_step_ref hlen
      (by rw [hgetr]; exact hr) (by rw [hgetr]; exact heff) hsp hget
      (by rw [hgetr]; exact hexp)
    rw [htake, hdrop] at hstep
    simp only [List.append_nil] at hstep
    have hlen2 : pre.length + 1 < (pre ++ a :: b :: rls').length := by
      simp
    have hgetb : (pre ++ a :: b :: rls').get ⟨pre.length + 1, hlen2⟩ = b := by
      rw [List.get_eq_getElem]
      rw [List.getElem_append_right (by simp)]
      simp
    have hbeff : dlookup (chars "Effect") b.data = some [] :=
      expandRef_effect hexp b (by simp)
    have herr : resolveLoop subs selfKey (pre ++ a :: b :: rls') (pre.length + 1) =
        .error .valueError :=
      resolveLoop_ref_nobang hlen2 (by rw [hgetb]; exact hbname)
        (by rw [hgetb]; exact hbeff) (show splitOnFirst '!' [] = none from rfl)
    calc resolveLoop subs selfKey (pre ++ [r]) 0
        = resolveLoop subs selfKey (pre ++ [r]) pre.length := by
          simpa using resolveLoop_advance pre [] [r] hpre
      _ = resolveLoop subs selfKey (pre ++ a :: b :: rls') (pre.length + 1) := hstep
      _ = .error .valueError := herr

theorem resolve_xref_c4_counterexample :
    resolveXref subsC4 =
      .ok [(chars "ep1", ⟨[], STYLE_HEADERS, EVENT_HEADERS, [], [rEv1]⟩)] ∧
    resolveLoop subsC4 (chars "ep1") [rEv1] 0 = .error .valueError := by
  have h1 : resolveLoop subsC4 (chars "ep1") [rEv0, rEv1] 0 =
      resolveLoop subsC4 (chars "ep1") [rEv1] 1 := by
    have := @resolveLoop_step_ref subsC4 (chars "ep1") [rEv0, rEv1] 0 (by decide)
      (chars "!nomatch") [] (chars "nomatch") [rEv0, rEv1] []
      (by decide) (by decide) (by decide) (by decide) (by decide)
    simpa using this
  have h2 : resolveLoop subsC4 (chars "ep1") [rEv1] 1 = .ok [rEv1] :=
    resolveLoop_stop (by decide)
  constructor
  · show resolveXrefGo [] [(chars "ep1", docC4)] = _
    rw [resolveXrefGo]
    have hs : resolveLoop ([] ++ (chars "ep1", docC4) :: []) (chars "ep1") docC4.events 0 =
        .ok [rEv1] := by
      show resolveLoop subsC4 (chars "ep1") [rEv0, rEv1] 0 = _
      rw [h1, h2]
    simp only [hs]
    rw [resolveXrefGo]
    rfl
  · exact @resolveLoop_ref_nobang subsC4 (chars "ep1") [rEv1] 0 (by decide)
      (chars "nobang") (by decide) (by decide) (by decide)

theorem resolve_xref_expansion_witness :
    resolveLoop subsC3 (chars "ep") ([] ++ rC3 :: []) 0 = .ok ([] ++ rlsC3 ++ []) ∧
    rlsC3 = specRefExpansion rC3 (chars "intro") [tEv1, tEv2] :=
  resolve_xref_expansion subsC3 (chars "ep") [] [] [tEv1, tEv2] rlsC3 rC3
    (chars "t!intro") (chars "t") (chars "intro")
    (by decide) (by decide) (by decide) (by decide) (by decide) (by decide)
    (by decide) (by decide)

theorem resolve_xref_ref_errors_witness :
    resolveLoop [] (chars "ep") ([] ++ rBadEff :: []) 0 = .error .valueError ∧
    resolveLoop [] (chars "ep") ([] ++ rBadFile :: []) 0 =
      .error (.keyError (chars "missing")) :=
  ⟨(resolve_xref_ref_errors [] (chars "ep") [] [] rBadEff (chars "nobang")
      (by decide) (by decide) (by decide)).1 (by decide),
   (resolve_xref_ref_errors [] (chars "ep") [] [] rBadFile (chars "missing!k")
      (by decide) (by decide) (by decide)).2 (chars "missing") (chars "k")
      (by decide) (by decide) (by decide) (by decide)⟩

theorem resolve_xref_index_skip_rescan_witness :
    resolveLoop subsKC4 (chars "ep") ([] ++ rKC4 :: xEvC4 :: []) 0 =
      .ok ([] ++ xEvC4 :: []) ∧
    resolveLoop subsRC4 (chars "ep") ([] ++ [rKC4]) 0 = .error .valueError :=
  ⟨(resolve_xref_index_skip_rescan subsKC4 (chars "ep")).1 [] [] [] xEvC4 rKC4
      (chars "t!intro") (chars "t") (chars "intro")
      (by decide) (by decide) (by decide) (by decide) (by decide) (by decide)
      (by decide),
   (resolve_xref_index_skip_rescan subsRC4 (chars "ep")).2 [] [mEv1, mEv2] [] aC4 bC4
      rKC4 (chars "t!intro") (chars "t") (chars "intro")
      (by decide) (by decide) (by decide) (by decide) (by decide) (by decide)
      (by decide)⟩


theorem mapM_ok {α β : Type} {f : α → Except PyErr β} {g : α → β} :
    ∀ {l : List α}, (∀ x ∈ l, f x = .ok (g x)) → l.mapM f = .ok (l.map g) := by
  intro l
  induction l with
  | nil => intro _; rfl
  | cons x xs ih =>
      intro h
      rw [List.mapM_cons, h x (List.mem_cons_self _ _),
        ih (fun y hy => h y (List.mem_cons_of_mem _ hy))]
      rfl

theorem styleStr_ok {s : AssStyle}
    (h : ∀ k ∈ STYLE_HEADERS, (dlookup k s.data).isSome) :
    styleStr s = .ok (styleLineIn STYLE_HEADERS s) := by
  rw [styleStr, mapM_ok (g := fun k => (dlookup k s.data).getD [])]
  · rfl
  · intro k hk
    rcases ho : dlookup k s.data with _ | v
    · exact absurd (ho ▸ h k hk) (by simp)
    · rw [pyGet, ho]
      rfl

theorem eventStr_ok {e : AssEvent}
    (h : ∀ k ∈ EVENT_HEADERS, (dlookup k e.data).isSome) :
    eventStr e = .ok (eventLineIn EVENT_HEADERS e) := by
  rw [eventStr, mapM_ok (g := fun k => (dlookup k e.data).getD [])]
  · rfl
  · intro k hk
    rcases ho : dlookup k e.data with _ | v
    · exact absurd (ho ▸ h k hk) (by simp)
    · rw [pyGet, ho]
      rfl

/-- C2 (amended): the serializer emits every data line in the canonical
header order while the `Format:` lines list the document's stored order; the
two agree when the stored orders are the canonical ones. -/
theorem export_canonical_order (a : Ass)
    (hs : ∀ s ∈ a.styles, ∀ k ∈ STYLE_HEADERS, (dlookup k s.data).isSome)
    (he : ∀ e ∈ a.events, ∀ k ∈ EVENT_HEADERS, (dlookup k e.data).isSome) :
    exportAss a = .ok (canonOrderExport a) ∧
    (a.style_header = STYLE_HEADERS → a.event_header = EVENT_HEADERS →
      canonOrderExport a = storedOrderExport a) := by
  constructor
  · rw [exportAss, exportLines,
      mapM_ok (g := styleLineIn STYLE_HEADERS) (fun s hs' => styleStr_ok (hs s hs')),
      mapM_ok (g := eventLineIn EVENT_HEADERS) (fun e he' => eventStr_ok (he e he'))]
    rfl
  · intro h1 h2
    rw [canonOrderExport, storedOrderExport, h1, h2]

set_option maxRecDepth 4000 in
theorem export_stored_order_counterexample :
    exportAss aC2 ≠ .ok (storedOrderExport aC2) := by decide

theorem export_canonical_order_witness :
    (exportAss aC2b = .ok (canonOrderExport aC2b) ∧
      (aC2b.style_header = STYLE_HEADERS → aC2b.event_header = EVENT_HEADERS →
        canonOrderExport aC2b = storedOrderExport aC2b)) :=
  export_canonical_order aC2b (by decide) (by decide)

theorem digitVal_digitChar {d : Nat} (h : d < 10) : digitVal (digitChar d) = some d := by
  interval_cases d <;> decide

theorem natToDigits_mem {n : Nat} : ∀ c ∈ natToDigits n, ∃ d, d < 10 ∧ c = digitChar d := by
  induction n using Nat.strong_induction_on with
  | _ n ih =>
      intro c hc
      rw [natToDigits] at hc
      by_cases h : n < 10
      · rw [dif_pos h] at hc
        rcases List.mem_singleton.mp hc with rfl
        exact ⟨n, h, rfl⟩
      · rw [dif_neg h] at hc
        rcases List.mem_append.mp hc with h1 | h1
        · exact ih (n / 10) (Nat.div_lt_self (by omega) (by omega)) c h1
        · rcases List.mem_singleton.mp h1 with rfl
          exact ⟨n % 10, Nat.mod_lt _ (by omega), rfl⟩

theorem natToDigits_ne_colon {n : Nat} : ':' ∉ natToDigits n := by
  intro hc
  obtain ⟨d, hd, he⟩ := natToDigits_mem ':' hc
  interval_cases d <;> simp [digitChar] at he <;> exact absurd he (by decide)

theorem natToDigits_ne_dot {n : Nat} : '.' ∉ natToDigits n := by
  intro hc
  obtain ⟨d, hd, he⟩ := natToDigits_mem '.' hc
  interval_cases d <;> simp [digitChar] at he <;> exact absurd he (by decide)

theorem natToDigits_ne_nil {n : Nat} : natToDigits n ≠ [] := by
  rw [natToDigits]
  by_cases h : n < 10
  · rw [dif_pos h]
    simp
  · rw [dif_neg h]
    simp

theorem parseNatAux_append {acc : Nat} {l1 l2 : Str} :
    parseNatAux acc (l1 ++ l2) =
      match parseNatAux acc l1 with
      | some a => parseNatAux a l2
      | none => none := by
  induction l1 generalizing acc with
  | nil => rfl
  | cons c t ih =>
      rw [List.cons_append, parseNatAux, parseNatAux]
      rcases h : digitVal c with _ | d
      · rfl
      · exact ih

theorem parseNatAux_natToDigits {n : Nat} :
    ∀ acc, parseNatAux acc (natToDigits n) =
      some (acc * 10 ^ (natToDigits n).length + n) := by
  induction n using Nat.strong_induction_on with
  | _ n ih =>
      intro acc
      rw [natToDigits]
      by_cases h : n < 10
      · rw [dif_pos h]
        simp [parseNatAux, digitVal_digitChar h, Nat.mul_comm]
      · rw [dif_neg h]
        rw [parseNatAux_append]
        rw [ih (n / 10) (Nat.div_lt_self (by omega) (by omega)) acc]
        simp only [parseNatAux, digitVal_digitChar (Nat.mod_lt _ (by omega))]
        have hdm : 10 * (n / 10) + n % 10 = n := by omega
        have hlen : (natToDigits (n / 10) ++ [digitChar (n % 10)]).length =
            (natToDigits (n / 10)).length + 1 := by simp
        rw [hlen, pow_succ]
        congr 1
        calc 10 * (acc * 10 ^ (natToDigits (n / 10)).length + n / 10) + n % 10
            = acc * (10 ^ (natToDigits (n / 10)).length * 10) +
              (10 * (n / 10) + n % 10) := by ring
          _ = acc * (10 ^ (natToDigits (n / 10)).length * 10) + n := by rw [hdm]

theorem parseNat_natToDigits {n : Nat} : parseNat (natToDigits n) = some n := by
  rw [parseNat, if_neg natToDigits_ne_nil, parseNatAux_natToDigits]
  simp

theorem parseNat_pad2 {n : Nat} : parseNat (pad2 n) = some n := by
  rw [pad2]
  by_cases h : n < 10
  · rw [if_pos h, parseNat, if_neg (by simp)]
    rw [show ('0' :: natToDigits n) = [] ++ '0' :: natToDigits n from rfl]
    rw [show parseNatAux 0 ([] ++ '0' :: natToDigits n) =
      parseNatAux 0 (natToDigits n) from by rw [List.nil_append]; rfl]
    rw [parseNatAux_natToDigits]
    simp
  · rw [if_neg h]
    exact parseNat_natToDigits

theorem pad2_ne_colon {n : Nat} : ':' ∉ pad2 n := by
  rw [pad2]
  by_cases h : n < 10
  · rw [if_pos h]
    intro hc
    rcases List.mem_cons.mp hc with h1 | h1
    · exact absurd h1 (by decide)
    · exact natToDigits_ne_colon h1
  · rw [if_neg h]
    exact natToDigits_ne_colon

theorem pad2_ne_dot {n : Nat} : '.' ∉ pad2 n := by
  rw [pad2]
  by_cases h : n < 10
  · rw [if_pos h]
    intro hc
    rcases List.mem_cons.mp hc with h1 | h1
    · exact absurd h1 (by decide)
    · exact natToDigits_ne_dot h1
  · rw [if_neg h]
    exact natToDigits_ne_dot

theorem natToDigits_len1 {n : Nat} (h : n < 10) : (natToDigits n).length = 1 := by
  rw [natToDigits, dif_pos h]
  rfl

theorem pad2_len2 {n : Nat} (h : n < 100) : (pad2 n).length = 2 := by
  rw [pad2]
  by_cases h1 : n < 10
  · rw [if_pos h1]
    simp [natToDigits_len1 h1]
  · rw [if_neg h1]
    rw [natToDigits, dif_neg h1]
    have : n / 10 < 10 := by omega
    simp [natToDigits_len1 this]

theorem splitOnFirst_append_sep {sep : Char} :
    ∀ {a rest : Str}, sep ∉ a → splitOnFirst sep (a ++ sep :: rest) = some (a, rest) := by
  intro a
  induction a with
  | nil =>
      intro rest _
      rw [List.nil_append, splitOnFirst, if_pos rfl]
  | cons c t ih =>
      intro rest hna
      rw [List.cons_append, splitOnFirst,
        if_neg (fun (hc : c = sep) => hna (hc ▸ List.mem_cons_self c t)),
        ih (fun hc => hna (List.mem_cons_of_mem _ hc))]
      rfl

theorem splitAll_no_sep {sep : Char} :
    ∀ {v : Str}, sep ∉ v → splitAll sep v = [v] := by
  intro v
  induction v with
  | nil => intro _; rfl
  | cons c t ih =>
      intro hn
      rw [splitAll, if_neg (fun (hc : c = sep) => hn (hc ▸ List.mem_cons_self c t)),
        ih (fun hc => hn (List.mem_cons_of_mem _ hc))]

theorem splitAll_append_sep {sep : Char} :
    ∀ {u v : Str}, sep ∉ u → sep ∉ v → splitAll sep (u ++ sep :: v) = [u, v] := by
  intro u
  induction u with
  | nil =>
      intro v _ hv
      rw [List.nil_append, splitAll, if_pos rfl, splitAll_no_sep hv]
  | cons c t ih =>
      intro v hu hv
      rw [List.cons_append, splitAll,
        if_neg (fun (hc : c = sep) => hu (hc ▸ List.mem_cons_self c t)),
        ih (fun hc => hu (List.mem_cons_of_mem _ hc)) hv]

theorem roundHalfEven_abs (q : ℚ) : |(roundHalfEven q : ℚ) - q| ≤ 1 / 2 := by
  rw [roundHalfEven]
  have h0 : (0 : ℚ) ≤ q - ⌊q⌋ := by
    have := Int.floor_le q
    linarith
  have h1 : q - ⌊q⌋ < 1 := by
    have := Int.lt_floor_add_one q
    linarith
  by_cases hlt : q - (⌊q⌋ : ℚ) < 1 / 2
  · rw [if_pos hlt]
    rw [abs_le]
    constructor <;> linarith
  · rw [if_neg hlt]
    by_cases hgt : 1 / 2 < q - (⌊q⌋ : ℚ)
    · rw [if_pos hgt]
      rw [abs_le]
      push_cast
      constructor <;> linarith
    · rw [if_neg hgt]
      have heq : q - (⌊q⌋ : ℚ) = 1 / 2 := le_antisymm (not_lt.mp hgt) (not_lt.mp hlt)
      by_cases hev : Even ⌊q⌋
      · rw [if_pos hev, abs_le]
        constructor <;> linarith
      · rw [if_neg hev, abs_le]
        push_cast
        constructor <;> linarith

theorem splitLimit2_assemble {a b : Nat} {cs : Str} :
    splitLimit ':' 2 (natToDigits a ++ ':' :: pad2 b ++ ':' :: cs) =
      [natToDigits a, pad2 b, cs] := by
  have hassoc : natToDigits a ++ ':' :: pad2 b ++ ':' :: cs =
      natToDigits a ++ (':' :: (pad2 b ++ (':' :: cs))) := by
    simp
  rw [hassoc]
  have h1 : splitOnFirst ':' (natToDigits a ++ (':' :: (pad2 b ++ (':' :: cs)))) =
      some (natToDigits a, pad2 b ++ (':' :: cs)) :=
    splitOnFirst_append_sep natToDigits_ne_colon
  have h2 : splitOnFirst ':' (pad2 b ++ (':' :: cs)) = some (pad2 b, cs) :=
    splitOnFirst_append_sep pad2_ne_colon
  simp only [splitLimit, h1, h2]

theorem intRepr_coe (k : ℕ) : intRepr ((k : ℕ) : ℤ) = natToDigits k := by
  rw [intRepr, if_neg (by omega)]
  simp

theorem parseFloat_pads {c1 c2 : Nat} (h2 : c2 < 100) :
    parseFloat (pad2 c1 ++ '.' :: pad2 c2) = some ((c1 : ℚ) + (c2 : ℚ) / 100) := by
  rw [parseFloat, splitAll_append_sep pad2_ne_dot pad2_ne_dot]
  simp only [parseNat_pad2]
  rw [pad2_len2 h2]
  norm_num

/-- C8: decoding the encoding of any time in `[0, 359999.99]` differs from the
input by at most `0.005` seconds (centisecond rounding). -/
theorem time_codec_roundtrip (x : ℚ) (hx0 : 0 ≤ x) (hx1 : x ≤ 359999 + 99 / 100) :
    ∃ y, asstime_to_float (asstime_from_float x) = .ok y ∧ |y - x| ≤ 1 / 200 := by
  have hN0 : 0 ≤ ⌊x⌋ := Int.floor_nonneg.mpr hx0
  have hNn : ((⌊x⌋.toNat : ℤ)) = ⌊x⌋ := Int.toNat_of_nonneg hN0
  -- seconds field s = x mod 60
  have h60 : (60 : ℚ) * (x / 60) = x := by
    rw [mul_comm, div_mul_cancel₀]
    norm_num
  have hfl : ((⌊x / 60⌋ : ℚ)) ≤ x / 60 := Int.floor_le _
  have hfu : x / 60 < ⌊x / 60⌋ + 1 := Int.lt_floor_add_one _
  have hs0 : 0 ≤ x - 60 * ⌊x / 60⌋ := by nlinarith
  have hs60 : x - 60 * ⌊x / 60⌋ < 60 := by nlinarith
  have habs : |((roundHalfEven (100 * (x - 60 * ⌊x / 60⌋)) : ℤ) : ℚ) -
      100 * (x - 60 * ⌊x / 60⌋)| ≤ 1 / 2 := roundHalfEven_abs _
  have hc0 : 0 ≤ roundHalfEven (100 * (x - 60 * ⌊x / 60⌋)) := by
    by_contra hneg
    push_neg at hneg
    have h1 : ((roundHalfEven (100 * (x - 60 * ⌊x / 60⌋)) : ℤ) : ℚ) ≤ -1 := by
      have : roundHalfEven (100 * (x - 60 * ⌊x / 60⌋)) ≤ -1 := by omega
      exact_mod_cast this
    have h2 := abs_le.mp habs
    nlinarith [h2.1, h2.2]
  -- Nat forms of the fields
  have hfdiv3600 : Int.fdiv ⌊x⌋ 3600 = ((⌊x⌋.toNat / 3600 : ℕ) : ℤ) := by
    rw [Int.fdiv_eq_ediv _ (by norm_num), ← hNn]
    norm_cast
  have hfdiv60 : Int.fdiv ⌊x⌋ 60 = ((⌊x⌋.toNat / 60 : ℕ) : ℤ) := by
    rw [Int.fdiv_eq_ediv _ (by norm_num), ← hNn]
    norm_cast
  have hfmod : Int.fmod (Int.fdiv ⌊x⌋ 60) 60 = ((⌊x⌋.toNat / 60 % 60 : ℕ) : ℤ) := by
    rw [hfdiv60, Int.fmod_eq_emod _ (by norm_num)]
    norm_cast
  have hxdiv60 : ⌊x / 60⌋ = ((⌊x⌋.toNat / 60 : ℕ) : ℤ) := by
    have hnn : 0 ≤ ⌊x / 60⌋ := Int.floor_nonneg.mpr (by positivity)
    have h1 : ⌊x / 60⌋.toNat = ⌊x / 60⌋₊ := Int.floor_toNat _
    have h2 : ⌊x / 60⌋₊ = ⌊x⌋₊ / 60 := by
      rw [show (60 : ℚ) = ((60 : ℕ) : ℚ) by norm_cast, Nat.floor_div_nat]
    have h3 : ⌊x⌋₊ = ⌊x⌋.toNat := (Int.floor_toNat x).symm
    rw [← Int.toNat_of_nonneg hnn, h1, h2, h3]
  -- the emitted string
  have hpy : pyInt x = ⌊x⌋ := by
    rw [pyInt, if_pos hx0]
  have hc2lt : (roundHalfEven (100 * (x - 60 * ⌊x / 60⌋))).toNat % 100 < 100 :=
    Nat.mod_lt _ (by norm_num)
  have hstr : asstime_from_float x =
      natToDigits (⌊x⌋.toNat / 3600) ++ ':' :: pad2 (⌊x⌋.toNat / 60 % 60) ++ ':' ::
        (pad2 ((roundHalfEven (100 * (x - 60 * ⌊x / 60⌋))).toNat / 100) ++ '.' ::
          pad2 ((roundHalfEven (100 * (x - 60 * ⌊x / 60⌋))).toNat % 100)) := by
    rw [asstime_from_float]
    simp only [hpy, hfmod, hfdiv3600, Int.toNat_natCast, intRepr_coe]
  have hval : asstime_to_float (asstime_from_float x) =
      .ok (((⌊x⌋.toNat / 3600 : ℕ) : ℚ) * 3600 + ((⌊x⌋.toNat / 60 % 60 : ℕ) : ℚ) * 60 +
        ((((roundHalfEven (100 * (x - 60 * ⌊x / 60⌋))).toNat / 100 : ℕ) : ℚ) +
          (((roundHalfEven (100 * (x - 60 * ⌊x / 60⌋))).toNat % 100 : ℕ) : ℚ) / 100)) := by
    rw [hstr, asstime_to_float, splitLimit2_assemble]
    simp only [parseNat_natToDigits, parseNat_pad2, parseFloat_pads hc2lt]
  refine ⟨_, hval, ?_⟩
  -- arithmetic: the decoded value is x with the seconds rounded to centiseconds
  have hnat : 3600 * (⌊x⌋.toNat / 3600) + 60 * (⌊x⌋.toNat / 60 % 60) =
      60 * (⌊x⌋.toNat / 60) := by
    have e1 : ⌊x⌋.toNat / 60 / 60 = ⌊x⌋.toNat / 3600 := by
      rw [Nat.div_div_eq_div_mul]
    have e2 := Nat.div_add_mod (⌊x⌋.toNat / 60) 60
    omega
  have hkey1 : ((⌊x⌋.toNat / 3600 : ℕ) : ℚ) * 3600 + ((⌊x⌋.toNat / 60 % 60 : ℕ) : ℚ) * 60 =
      60 * ((⌊x⌋.toNat / 60 : ℕ) : ℚ) := by
    have := congrArg (fun n : ℕ => (n : ℚ)) hnat
    push_cast at this
    linarith
  have hkey2 : ((⌊x / 60⌋ : ℤ) : ℚ) = ((⌊x⌋.toNat / 60 : ℕ) : ℚ) := by
    rw [hxdiv60]
    norm_cast
  have hcd := Nat.div_add_mod (roundHalfEven (100 * (x - 60 * ⌊x / 60⌋))).toNat 100
  have hkey3 : (((roundHalfEven (100 * (x - 60 * ⌊x / 60⌋))).toNat / 100 : ℕ) : ℚ) +
      (((roundHalfEven (100 * (x - 60 * ⌊x / 60⌋))).toNat % 100 : ℕ) : ℚ) / 100 =
      (((roundHalfEven (100 * (x - 60 * ⌊x / 60⌋))).toNat : ℕ) : ℚ) / 100 := by
    have := congrArg (fun n : ℕ => (n : ℚ)) hcd
    push_cast at this
    field_simp
    linarith
  have hkey4 : (((roundHalfEven (100 * (x - 60 * ⌊x / 60⌋))).toNat : ℕ) : ℚ) =
      ((roundHalfEven (100 * (x - 60 * ⌊x / 60⌋)) : ℤ) : ℚ) := by
    exact_mod_cast congrArg (fun z : ℤ => (z : ℚ)) (Int.toNat_of_nonneg hc0)
  rw [hkey1, hkey3, hkey4]
  have habs2 := abs_le.mp habs
  rw [abs_le]
  constructor <;> nlinarith [habs2.1, habs2.2, hkey2]

theorem time_codec_roundtrip_witness :
    ∃ y, asstime_to_float (asstime_from_float (653 / 10 : ℚ)) = .ok y ∧
      |y - 653 / 10| ≤ 1 / 200 :=
  time_codec_roundtrip (653 / 10) (by norm_num) (by norm_num)

theorem allocAll_store : ∀ (ds : List (Str × Dict)) (st : Store),
    (allocAll st ds).1 = st ++ ds.map Prod.snd := by
  intro ds
  induction ds with
  | nil => intro st; simp [allocAll]
  | cons td rest ih =>
      intro st
      obtain ⟨t, d⟩ := td
      rw [allocAll]
      simp only [ih (st ++ [d])]
      simp

theorem allocAll_cells : ∀ (ds : List (Str × Dict)) (st : Store),
    ∀ tc ∈ (allocAll st ds).2, st.length ≤ tc.2 := by
  intro ds
  induction ds with
  | nil =>
      intro st tc htc
      simp [allocAll] at htc
  | cons td rest ih =>
      intro st tc htc
      obtain ⟨t, d⟩ := td
      rw [allocAll] at htc
      simp only at htc
      rcases List.mem_cons.mp htc with h1 | h1
      · subst h1
        simp
      · have := ih (st ++ [d]) tc h1
        simp at this
        omega

/-- C10: heap-level language extraction leaves every cell of the source store
unchanged (the new store only appends fresh cells), and every style/event
field map of the returned document lives in a fresh cell, disjoint from the
source document's cells. -/
theorem extract_language_heap (st : Store) (a : AssH) (lc : Str)
    (st' : Store) (b : AssH)
    (h : extract_languageH st a lc = .ok (st', b)) :
    st'.take st.length = st ∧
    (∀ c ∈ b.styles, st.length ≤ c) ∧
    (∀ tc ∈ b.events, st.length ≤ tc.2) ∧
    ((∀ c ∈ a.styles, c < st.length) → ∀ c ∈ b.styles, c ∉ a.styles) ∧
    ((∀ tc ∈ a.events, tc.2 < st.length) →
      ∀ tc ∈ b.events, ∀ tc' ∈ a.events, tc.2 ≠ tc'.2) := by
  rw [extract_languageH] at h
  split at h
  · cases h
  · rename_i stys hstys
    split at h
    · cases h
    · rename_i evs hevs
      split at h
      · cases h
      · rename_i title htitle
        split at h
        · cases h
        · rename_i kept hkept
          cases h
          have hst1 : (allocAll st (stys.map (fun x => ([], x.data)))).1 =
              st ++ (stys.map (fun x => ([], x.data))).map Prod.snd :=
            allocAll_store _ _
          have hst2 := allocAll_store (kept.map (fun e => (e.event_type, e.data)))
            (allocAll st (stys.map (fun x => ([], x.data)))).1
          have hcells1 := allocAll_cells (stys.map (fun x => ([], x.data))) st
          have hcells2 := allocAll_cells (kept.map (fun e => (e.event_type, e.data)))
            (allocAll st (stys.map (fun x => ([], x.data)))).1
          have hsty : ∀ c ∈ (allocAll st (stys.map (fun x => ([], x.data)))).2.map Prod.snd,
              st.length ≤ c := by
            intro c hc
            rcases List.mem_map.mp hc with ⟨tc, htc, rfl⟩
            exact hcells1 tc htc
          have hev : ∀ tc ∈ (allocAll (allocAll st (stys.map (fun x => ([], x.data)))).1
              (kept.map (fun e => (e.event_type, e.data)))).2, st.length ≤ tc.2 := by
            intro tc htc
            have h1 := hcells2 tc htc
            rw [hst1] at h1
            simp at h1
            omega
          refine ⟨?_, hsty, hev, ?_, ?_⟩
          · rw [hst2, hst1]
            rw [List.append_assoc, List.take_left]
          · intro hvalid c hc hmem
            have h1 := hsty c hc
            have h2 := hvalid c hmem
            omega
          · intro hvalid tc htc tc' htc'
            have h1 := hev tc htc
            have h2 := hvalid tc' htc'
            omega

theorem extract_language_heap_witness :
    (wOutH.1).take stH.length = stH ∧
    (∀ c ∈ wOutH.2.styles, stH.length ≤ c) ∧
    (∀ tc ∈ wOutH.2.events, stH.length ≤ tc.2) ∧
    ((∀ c ∈ aH.styles, c < stH.length) → ∀ c ∈ wOutH.2.styles, c ∉ aH.styles) ∧
    ((∀ tc ∈ aH.events, tc.2 < stH.length) →
      ∀ tc ∈ wOutH.2.events, ∀ tc' ∈ aH.events, tc.2 ≠ tc'.2) :=
  extract_language_heap stH aH (chars "ja") wOutH.1 wOutH.2 (by decide)

theorem dropWhile_len_eq {p : Char → Bool} :
    ∀ {l : Str}, (l.dropWhile p).length = l.length → l.dropWhile p = l := by
  intro l
  cases l with
  | nil => intro _; rfl
  | cons c t =>
      intro h
      rw [List.dropWhile_cons] at h ⊢
      by_cases hp : p c = true
      · rw [if_pos hp] at h
        have h2 : (t.dropWhile p).length ≤ t.length := (List.dropWhile_sublist p).length_le
        simp only [List.length_cons] at h
        omega
      · rw [if_neg hp] at h ⊢

theorem strip_both {v : Str} (h : pyStrip v = v) : stripR v = v ∧ stripL v = v := by
  have hlen1 : (stripL (stripR v)).length ≤ (stripR v).length := (List.dropWhile_sublist _).length_le
  have hlen2 : (stripR v).length ≤ v.length := by
    rw [stripR, List.length_reverse]
    calc (stripL v.reverse).length ≤ v.reverse.length := (List.dropWhile_sublist _).length_le
      _ = v.length := List.length_reverse _
  have hv : (stripL (stripR v)).length = v.length := by
    rw [show stripL (stripR v) = v from h]
  have hR : stripR v = v := by
    have hlenR : (stripL v.reverse).length = v.reverse.length := by
      rw [List.length_reverse]
      have : (stripR v).length = v.length := by omega
      rw [stripR, List.length_reverse] at this
      exact this
    rw [stripL] at hlenR
    rw [stripR, stripL, dropWhile_len_eq hlenR, List.reverse_reverse]
  refine ⟨hR, ?_⟩
  rw [pyStrip, hR] at h
  exact h

theorem head_not_ws_of_stripL {c : Char} {t : Str} (h : stripL (c :: t) = c :: t) :
    pyIsWS c = false := by
  rw [stripL, List.dropWhile_cons] at h
  by_cases hp : pyIsWS c = true
  · rw [if_pos hp] at h
    have h2 : (t.dropWhile pyIsWS).length ≤ t.length := (List.dropWhile_sublist pyIsWS).length_le
    have h3 := congrArg List.length h
    simp only [List.length_cons] at h3
    omega
  · simpa using hp

theorem stripL_cons_of_neg {c : Char} {t : Str} (hc : pyIsWS c = false) :
    stripL (c :: t) = c :: t := by
  rw [stripL, List.dropWhile_cons, if_neg (by simp [hc])]

theorem stripR_append {u v : Str} (hv : stripR v = v) (hne : v ≠ []) :
    stripR (u ++ v) = u ++ v := by
  rcases hrev : v.reverse with _ | ⟨c, t⟩
  · exact absurd (by simpa using congrArg List.reverse hrev) hne
  · have h1 : stripL v.reverse = v.reverse := by
      have h2 := congrArg List.reverse hv
      rw [stripR, List.reverse_reverse] at h2
      exact h2
    rw [hrev] at h1
    have hc : pyIsWS c = false := head_not_ws_of_stripL h1
    have hveq : v = (c :: t).reverse := by rw [← hrev, List.reverse_reverse]
    rw [stripR, List.reverse_append, hrev, List.cons_append, stripL_cons_of_neg hc]
    rw [hveq]
    simp

theorem stripR_snoc_ws {u : Str} {c : Char} (hc : pyIsWS c = true) :
    stripR (u ++ [c]) = stripR u := by
  rw [stripR, stripR, List.reverse_append]
  have h1 : [c].reverse ++ u.reverse = c :: u.reverse := by simp
  rw [h1, stripL, List.dropWhile_cons, if_pos hc]
  rfl

theorem pyStrip_space {v : Str} (h : pyStrip v = v) : pyStrip (' ' :: v) = v := by
  rcases strip_both h with ⟨hR, hL⟩
  by_cases hne : v = []
  · subst hne; rfl
  · have h1 : stripR (' ' :: v) = ' ' :: v := by
      have h2 := stripR_append (u := [' ']) hR hne
      simpa using h2
    rw [pyStrip, h1, stripL, List.dropWhile_cons, if_pos (by decide : pyIsWS ' ' = true)]
    exact hL

theorem joinSep_cons {s x : Str} {xs : List Str} (h : xs ≠ []) :
    joinSep s (x :: xs) = x ++ s ++ joinSep s xs := by
  cases xs with
  | nil => exact absurd rfl h
  | cons y ys => rfl

theorem joinSep_snoc {s : Str} : ∀ {xs : List Str} {v : Str}, xs ≠ [] →
    joinSep s (xs ++ [v]) = joinSep s xs ++ s ++ v := by
  intro xs
  induction xs with
  | nil => intro v h; exact absurd rfl h
  | cons x t ih =>
      intro v _
      rcases ht : t with _ | ⟨y, ys⟩
      · rfl
      · have htne : t ≠ [] := by rw [ht]; simp
        rw [← ht, List.cons_append, joinSep_cons (by simp : t ++ [v] ≠ []), ih htne,
          joinSep_cons htne]
        simp [List.append_assoc]

theorem joinSep_cons_head {s : Str} {c : Char} {v : Str} {rest : List Str} :
    joinSep s ((c :: v) :: rest) = c :: joinSep s (v :: rest) := by
  cases rest with
  | nil => rfl
  | cons y ys => rfl

theorem mem_joinSep {c : Char} {s : Str} : ∀ {vs : List Str}, c ∈ joinSep s vs →
    c ∈ s ∨ ∃ v ∈ vs, c ∈ v := by
  intro vs
  induction vs with
  | nil => intro h; exact absurd h (List.not_mem_nil c)
  | cons x t ih =>
      intro h
      cases t with
      | nil => exact Or.inr ⟨x, by simp, h⟩
      | cons y ys =>
          rw [joinSep_cons (by simp)] at h
          rcases List.mem_append.mp h with h1 | h1
          · rcases List.mem_append.mp h1 with h2 | h2
            · exact Or.inr ⟨x, by simp, h2⟩
            · exact Or.inl h2
          · rcases ih h1 with h2 | ⟨v, hv, hc⟩
            · exact Or.inl h2
            · exact Or.inr ⟨v, List.mem_cons_of_mem _ hv, hc⟩

theorem splitAll_sep_cons {sep : Char} : ∀ {u v : Str}, sep ∉ u →
    splitAll sep (u ++ sep :: v) = u :: splitAll sep v := by
  intro u
  induction u with
  | nil => intro v _; rw [List.nil_append, splitAll, if_pos rfl]
  | cons c t ih =>
      intro v hu
      rw [List.cons_append, splitAll,
        if_neg (fun (hc : c = sep) => hu (hc ▸ List.mem_cons_self c t)),
        ih (fun hc => hu (List.mem_cons_of_mem _ hc))]

theorem splitAll_join {sep : Char} : ∀ {ls : List Str}, ls ≠ [] → (∀ l ∈ ls, sep ∉ l) →
    splitAll sep (joinSep [sep] ls) = ls := by
  intro ls
  induction ls with
  | nil => intro h _; exact absurd rfl h
  | cons x t ih =>
      intro _ hl
      cases t with
      | nil => exact splitAll_no_sep (hl x (by simp))
      | cons y ys =>
          rw [joinSep_cons (by simp), List.append_assoc]
          simp only [List.singleton_append]
          rw [splitAll_sep_cons (hl x (by simp)),
            ih (by simp) (fun l hl' => hl l (List.mem_cons_of_mem _ hl'))]

theorem splitLimit_join {sep : Char} : ∀ (n : Nat) (vs : List Str), vs.length = n + 1 →
    (∀ v ∈ vs.take n, sep ∉ v) → splitLimit sep n (joinSep [sep] vs) = vs := by
  intro n
  induction n with
  | zero =>
      intro vs hlen _
      rcases vs with _ | ⟨v, t⟩
      · simp at hlen
      · rcases t with _ | ⟨y, ys⟩
        · rfl
        · simp at hlen
  | succ n ih =>
      intro vs hlen hfree
      rcases vs with _ | ⟨v, t⟩
      · simp at hlen
      · have htne : t ≠ [] := by
          intro hh
          rw [hh] at hlen
          simp at hlen
        have hv : sep ∉ v := hfree v (by rw [List.take_succ_cons]; exact List.mem_cons_self _ _)
        rw [joinSep_cons htne, List.append_assoc]
        simp only [List.singleton_append]
        rw [splitLimit, splitOnFirst_append_sep hv]
        show v :: splitLimit sep n (joinSep [sep] t) = v :: t
        rw [ih t (by simpa using hlen)
          (fun v' hv' => hfree v' (by rw [List.take_succ_cons]; exact List.mem_cons_of_mem _ hv'))]

theorem dlookup_isSome_of_mem {k : Str} : ∀ {d : Dict}, k ∈ d.map Prod.fst →
    (dlookup k d).isSome = true := by
  intro d
  induction d with
  | nil => intro h; simp at h
  | cons kv t ih =>
      intro h
      obtain ⟨k', v'⟩ := kv
      rw [dlookup]
      by_cases hk : k' = k
      · rw [if_pos hk]; rfl
      · rw [if_neg hk]
        apply ih
        simp at h
        rcases h with h | h
        · exact absurd h.symm hk
        · simpa using h

theorem dinsert_append {k v : Str} : ∀ {d : Dict}, k ∉ d.map Prod.fst →
    dinsert k v d = d ++ [(k, v)] := by
  intro d
  induction d with
  | nil => intro _; rfl
  | cons kv t ih =>
      intro h
      obtain ⟨k', v'⟩ := kv
      rw [dinsert, if_neg (fun (hk : k' = k) => h (by simp [hk])),
        ih (fun hm => h (by simp only [List.map_cons, List.mem_cons]; exact Or.inr hm))]
      rfl

theorem foldl_dinsert : ∀ (ps : List (Str × Str)) (acc : Dict),
    ((acc ++ ps).map Prod.fst).Nodup →
    ps.foldl (fun d kv => dinsert kv.1 kv.2 d) acc = acc ++ ps := by
  intro ps
  induction ps with
  | nil => intro acc _; simp
  | cons kv t ih =>
      intro acc h
      obtain ⟨k, v⟩ := kv
      rw [List.foldl_cons]
      have hk : k ∉ acc.map Prod.fst := by
        rw [List.map_append] at h
        rcases List.nodup_append.mp h with ⟨_, _, hdisj⟩
        intro hm
        exact hdisj hm (by simp)
      rw [show dinsert k v acc = acc ++ [(k, v)] from dinsert_append hk]
      have h2 : (((acc ++ [(k, v)]) ++ t).map Prod.fst).Nodup := by
        have heq : (acc ++ [(k, v)]) ++ t = acc ++ ((k, v) :: t) := by simp
        rw [heq]
        exact h
      rw [ih (acc ++ [(k, v)]) h2]
      simp

theorem buildDict_self {l : Dict} (h : (l.map Prod.fst).Nodup) : buildDict l = l := by
  rw [buildDict]
  have h2 := foldl_dinsert l [] (by simpa using h)
  simpa using h2

theorem map_dlookup_self : ∀ {l : Dict}, (l.map Prod.fst).Nodup →
    (l.map Prod.fst).map (fun k => (dlookup k l).getD []) = l.map Prod.snd := by
  intro l
  induction l with
  | nil => intro _; rfl
  | cons kv t ih =>
      intro h
      obtain ⟨k, v⟩ := kv
      simp only [List.map_cons]
      have hk : k ∉ t.map Prod.fst := by
        simp only [List.map_cons] at h
        exact (List.nodup_cons.mp h).1
      congr 1
      · rw [dlookup, if_pos rfl]
        rfl
      · calc (t.map Prod.fst).map (fun k' => (dlookup k' ((k, v) :: t)).getD [])
            = (t.map Prod.fst).map (fun k' => (dlookup k' t).getD []) := by
              apply List.map_congr_left
              intro k' hk'
              rw [dlookup, if_neg (fun (he : k = k') => hk (he.symm ▸ hk'))]
          _ = t.map Prod.snd := ih (by
              simp only [List.map_cons] at h
              exact (List.nodup_cons.mp h).2)

theorem zip_fst_snd {l : Dict} : (l.map Prod.fst).zip (l.map Prod.snd) = l := by
  have h := List.zip_unzip l
  rw [List.unzip_eq_map] at h
  exact h

theorem exceptBind_ok {α β : Type} (a : α) (g : α → Except PyErr β) :
    ((Except.ok a : Except PyErr α) >>= g) = g a := rfl

theorem pline_congr {st : PState} {r1 r2 : Str} (h : pyStrip r1 = pyStrip r2) :
    pline st r1 = pline st r2 := by
  rw [pline, pline, h]

theorem pline_blank {st : PState} : pline st [] = .ok st := rfl

theorem pline_sect_si {st : PState} :
    pline st (chars "[Script Info]") =
      .ok { st with sect := some (chars "Script Info"), header := none } := rfl

theorem pline_sect_v4 {st : PState} :
    pline st (chars "[V4+ Styles]") =
      .ok { st with sect := some (chars "V4+ Styles"), header := none } := rfl

theorem pline_sect_ev {st : PState} :
    pline st (chars "[Events]") =
      .ok { st with sect := some (chars "Events"), header := none } := rfl

set_option maxRecDepth 8000 in
theorem pline_format_styles {d : Ass} :
    pline ⟨some (chars "V4+ Styles"), none, d⟩
        (chars "Format: " ++ joinSep (chars ", ") STYLE_HEADERS) =
      .ok ⟨some (chars "V4+ Styles"), some STYLE_HEADERS,
        { d with style_header := STYLE_HEADERS }⟩ := rfl

set_option maxRecDepth 8000 in
theorem pline_format_events {d : Ass} :
    pline ⟨some (chars "Events"), none, d⟩
        (chars "Format: " ++ joinSep (chars ", ") EVENT_HEADERS) =
      .ok ⟨some (chars "Events"), some EVENT_HEADERS,
        { d with event_header := EVENT_HEADERS }⟩ := rfl

theorem pline_split {st : PState} {k rest : Str}
    (hstrip : pyStrip (k ++ ':' :: rest) = k ++ ':' :: rest)
    (hk : ':' ∉ k) (hkF : k ≠ chars "Format")
    (hh1 : ¬((k ++ ':' :: rest).head? = some ';' ∨ (k ++ ':' :: rest).head? = some '#'))
    (hh2 : ¬((k ++ ':' :: rest).head? = some '[' ∧ (k ++ ':' :: rest).getLast? = some ']')) :
    pline st (k ++ ':' :: rest) =
      (if st.sect = some (chars "Script Info") then
        .ok { st with doc :=
          { st.doc with script_info := dinsert k (pyStrip rest) st.doc.script_info } }
      else if st.sect = some (chars "V4+ Styles") then
        match st.header with
        | none => .error .typeError
        | some hdr =>
            .ok { st with doc := { st.doc with styles := st.doc.styles ++
              [⟨buildDict (hdr.zip ((splitLimit ',' (hdr.length - 1) rest).map pyStrip))⟩] } }
      else if st.sect = some (chars "Events") then
        match st.header with
        | none => .error .typeError
        | some hdr =>
            .ok { st with doc := { st.doc with events := st.doc.events ++
              [⟨k, buildDict (hdr.zip ((splitLimit ',' (hdr.length - 1) rest).map pyStrip))⟩] } }
      else .ok st) := by
  rw [pline]
  simp only [hstrip]
  rw [if_neg (by simp : ¬(k ++ ':' :: rest = [])), if_neg hh1, if_neg hh2,
    splitOnFirst_append_sep hk]
  show (if k = chars "Format" then _ else _) = _
  rw [if_neg hkF]

theorem stripR_line {u : Str} {vals : List Str} (hlen : 2 ≤ vals.length)
    (hlast : ∀ v, vals.getLast? = some v → stripR v = v) :
    stripR (u ++ joinSep [','] vals) = u ++ joinSep [','] vals := by
  have hne : vals ≠ [] := by
    intro h; rw [h] at hlen; simp at hlen
  have hsplit : vals.dropLast ++ [vals.getLast hne] = vals := List.dropLast_append_getLast hne
  have hinit : vals.dropLast ≠ [] := by
    intro h
    have h2 := congrArg List.length hsplit
    rw [h] at h2
    simp at h2
    omega
  have hR : stripR (vals.getLast hne) = vals.getLast hne :=
    hlast _ (List.getLast?_eq_getLast vals hne)
  rw [← hsplit, joinSep_snoc hinit]
  by_cases hv : vals.getLast hne = []
  · rw [hv, List.append_nil]
    have h1 : u ++ (joinSep [','] vals.dropLast ++ [',']) =
        (u ++ joinSep [','] vals.dropLast) ++ [','] := by simp
    rw [h1]
    rw [stripR_append (v := [',']) (by decide) (by simp)]
  · have h1 : u ++ (joinSep [','] vals.dropLast ++ [','] ++ vals.getLast hne) =
        (u ++ (joinSep [','] vals.dropLast ++ [','])) ++ vals.getLast hne := by simp
    rw [h1, stripR_append hR hv]

theorem pline_info {hd : Option (List Str)} {d : Ass} {k v : Str}
    (hwf : infoPairWF (k, v) = true) :
    pline ⟨some (chars "Script Info"), hd, d⟩ (k ++ ':' :: ' ' :: v) =
      .ok ⟨some (chars "Script Info"), hd,
        { d with script_info := dinsert k v d.script_info }⟩ := by
  simp only [infoPairWF, stripInv, noLF, Bool.and_eq_true, decide_eq_true_eq] at hwf
  obtain ⟨⟨⟨⟨⟨hk, hkF⟩, hnlk⟩, hhd⟩, hsv⟩, hnlv⟩ := hwf
  have hhead : ∀ c₀ rest, ((k ++ ':' :: rest).head? = some c₀) →
      pyIsWS c₀ = false ∧ c₀ ≠ ';' ∧ c₀ ≠ '#' ∧ c₀ ≠ '[' := by
    intro c₀ rest hc
    cases k with
    | nil =>
        simp only [List.nil_append, List.head?_cons, Option.some.injEq] at hc
        subst hc
        exact ⟨by decide, by decide, by decide, by decide⟩
    | cons c t =>
        simp only [List.cons_append, List.head?_cons, Option.some.injEq] at hc
        subst hc
        simp only [List.head?_cons] at hhd
        have hb : badHead c = false := by simpa using hhd
        have h1 : c ≠ ';' := fun he => by rw [he] at hb; exact absurd hb (by decide)
        have h2 : c ≠ '#' := fun he => by rw [he] at hb; exact absurd hb (by decide)
        have h3 : c ≠ '[' := fun he => by rw [he] at hb; exact absurd hb (by decide)
        have h4 : pyIsWS c = false := by
          cases hws : pyIsWS c
          · rfl
          · rw [badHead, hws] at hb
            simp at hb
        exact ⟨h4, h1, h2, h3⟩
  have hcond : ∀ rest, ¬(((k ++ ':' :: rest).head? = some ';') ∨
      ((k ++ ':' :: rest).head? = some '#')) := by
    intro rest hor
    rcases hor with h | h
    · exact (hhead ';' rest h).2.1 rfl
    · exact (hhead '#' rest h).2.2.1 rfl
  have hcond2 : ∀ rest, ¬(((k ++ ':' :: rest).head? = some '[') ∧
      ((k ++ ':' :: rest).getLast? = some ']')) := by
    intro rest hand
    exact (hhead '[' rest hand.1).2.2.2 rfl
  have hstripL : ∀ rest, stripR (k ++ ':' :: rest) = k ++ ':' :: rest →
      pyStrip (k ++ ':' :: rest) = k ++ ':' :: rest := by
    intro rest hR
    rw [pyStrip, hR]
    cases k with
    | nil => exact stripL_cons_of_neg (hhead ':' rest rfl).1
    | cons c t =>
        rw [List.cons_append]
        exact stripL_cons_of_neg (hhead c rest rfl).1
  by_cases hv : v = []
  · subst hv
    have hps : pyStrip (k ++ ':' :: ' ' :: ([] : Str)) = pyStrip (k ++ ':' :: ([] : Str)) := by
      rw [pyStrip, pyStrip,
        show k ++ ':' :: ' ' :: ([] : Str) = (k ++ ':' :: ([] : Str)) ++ [' '] by simp,
        stripR_snoc_ws (by decide)]
    rw [pline_congr hps]
    have hR : stripR (k ++ ':' :: ([] : Str)) = k ++ ':' :: ([] : Str) :=
      stripR_append (by decide) (by simp)
    rw [pline_split (hstripL _ hR) hk hkF (hcond _) (hcond2 _), if_pos rfl]
    rfl
  · have hRv := (strip_both hsv).1
    have hR : stripR (k ++ ':' :: ' ' :: v) = k ++ ':' :: ' ' :: v := by
      rw [show k ++ ':' :: ' ' :: v = (k ++ [':', ' ']) ++ v by simp]
      exact stripR_append hRv hv
    rw [pline_split (hstripL _ hR) hk hkF (hcond _) (hcond2 _), if_pos rfl,
      pyStrip_space hsv]

theorem head_conds {k : Str}
    (hhd : (match k.head? with | some c => !badHead c | none => true) = true) :
    ∀ c₀ rest, ((k ++ ':' :: rest).head? = some c₀) →
      pyIsWS c₀ = false ∧ c₀ ≠ ';' ∧ c₀ ≠ '#' ∧ c₀ ≠ '[' := by
  intro c₀ rest hc
  cases k with
  | nil =>
      simp only [List.nil_append, List.head?_cons, Option.some.injEq] at hc
      subst hc
      exact ⟨by decide, by decide, by decide, by decide⟩
  | cons c t =>
      simp only [List.cons_append, List.head?_cons, Option.some.injEq] at hc
      subst hc
      simp only [List.head?_cons] at hhd
      have hb : badHead c = false := by simpa using hhd
      have h1 : c ≠ ';' := fun he => by rw [he] at hb; exact absurd hb (by decide)
      have h2 : c ≠ '#' := fun he => by rw [he] at hb; exact absurd hb (by decide)
      have h3 : c ≠ '[' := fun he => by rw [he] at hb; exact absurd hb (by decide)
      have h4 : pyIsWS c = false := by
        cases hws : pyIsWS c
        · rfl
        · rw [badHead, hws] at hb
          simp at hb
      exact ⟨h4, h1, h2, h3⟩

theorem head_cond1 {k rest : Str}
    (hh : ∀ c₀ r, ((k ++ ':' :: r).head? = some c₀) →
      pyIsWS c₀ = false ∧ c₀ ≠ ';' ∧ c₀ ≠ '#' ∧ c₀ ≠ '[') :
    ¬(((k ++ ':' :: rest).head? = some ';') ∨ ((k ++ ':' :: rest).head? = some '#')) := by
  intro hor
  rcases hor with h | h
  · exact (hh ';' rest h).2.1 rfl
  · exact (hh '#' rest h).2.2.1 rfl

theorem head_cond2 {k rest : Str}
    (hh : ∀ c₀ r, ((k ++ ':' :: r).head? = some c₀) →
      pyIsWS c₀ = false ∧ c₀ ≠ ';' ∧ c₀ ≠ '#' ∧ c₀ ≠ '[') :
    ¬(((k ++ ':' :: rest).head? = some '[') ∧ ((k ++ ':' :: rest).getLast? = some ']')) := by
  intro hand
  exact (hh '[' rest hand.1).2.2.2 rfl

theorem strip_cond {k rest : Str}
    (hh : ∀ c₀ r, ((k ++ ':' :: r).head? = some c₀) →
      pyIsWS c₀ = false ∧ c₀ ≠ ';' ∧ c₀ ≠ '#' ∧ c₀ ≠ '[')
    (hR : stripR (k ++ ':' :: rest) = k ++ ':' :: rest) :
    pyStrip (k ++ ':' :: rest) = k ++ ':' :: rest := by
  rw [pyStrip, hR]
  cases k with
  | nil => exact stripL_cons_of_neg (hh ':' rest rfl).1
  | cons c t =>
      rw [List.cons_append]
      exact stripL_cons_of_neg (hh c rest rfl).1

theorem splitvals {vals : List Str} {m : Nat} (hlen : vals.length = m + 1)
    (hfree : ∀ w ∈ vals.take m, ',' ∉ w)
    (hstrip : ∀ w ∈ vals, pyStrip w = w) :
    (splitLimit ',' m (' ' :: joinSep [','] vals)).map pyStrip = vals := by
  rcases vals with _ | ⟨v1, vrest⟩
  · simp at hlen
  · rw [← joinSep_cons_head]
    have h1 : splitLimit ',' m (joinSep [','] ((' ' :: v1) :: vrest)) = (' ' :: v1) :: vrest := by
      apply splitLimit_join
      · simpa using hlen
      · intro w hw
        rcases m with _ | m'
        · exact absurd hw (by simp)
        · rw [List.take_succ_cons] at hw
          rcases List.mem_cons.mp hw with h2 | h2
          · subst h2
            intro hmem
            rcases List.mem_cons.mp hmem with h3 | h3
            · exact absurd h3 (by decide)
            · exact hfree v1 (by rw [List.take_succ_cons]; exact List.mem_cons_self _ _) h3
          · exact hfree w (by rw [List.take_succ_cons]; exact List.mem_cons_of_mem _ h2)
    rw [h1, List.map_cons, pyStrip_space (hstrip v1 (List.mem_cons_self _ _))]
    congr 1
    calc vrest.map pyStrip
        = vrest.map id :=
          List.map_congr_left (fun w hw => hstrip w (List.mem_cons_of_mem _ hw))
      _ = vrest := List.map_id _

theorem getLast_drop_mem {vals : List Str} {n : Nat} (hlen : vals.length = n + 1) :
    ∀ w, vals.getLast? = some w → w ∈ vals.drop n := by
  intro w hw
  have hne : vals ≠ [] := by intro h; rw [h] at hw; simp at hw
  have hsp := List.dropLast_append_getLast hne
  have hgl : w = vals.getLast hne := by
    rw [List.getLast?_eq_getLast vals hne] at hw
    simp only [Option.some.injEq] at hw
    exact hw.symm
  have hlen' : vals.dropLast.length = n := by
    rw [List.length_dropLast, hlen]
    omega
  have hdrop : vals.drop n = [vals.getLast hne] := by
    calc vals.drop n
        = (vals.dropLast ++ [vals.getLast hne]).drop vals.dropLast.length := by rw [hsp, hlen']
      _ = [vals.getLast hne] := List.drop_left _ _
  rw [hdrop, hgl]
  exact List.mem_singleton.mpr rfl

theorem pline_style {d : Ass} {s : AssStyle} (hwf : styleWF s = true) :
    pline ⟨some (chars "V4+ Styles"), some STYLE_HEADERS, d⟩ (styleLineIn STYLE_HEADERS s) =
      .ok ⟨some (chars "V4+ Styles"), some STYLE_HEADERS,
        { d with styles := d.styles ++ [s] }⟩ := by
  obtain ⟨sd⟩ := s
  simp only [styleWF, Bool.and_eq_true, decide_eq_true_eq, List.all_eq_true] at hwf
  obtain ⟨⟨hkeys, hplain⟩, hlast⟩ := hwf
  have hnd : (sd.map Prod.fst).Nodup := by rw [hkeys]; decide
  have hsdlen : sd.length = 23 := by
    have h := congrArg List.length hkeys
    rwa [List.length_map, show STYLE_HEADERS.length = 23 from by decide] at h
  have hvlen : (sd.map Prod.snd).length = 23 := by rw [List.length_map, hsdlen]
  have hvalwf : ∀ w ∈ sd.map Prod.snd, pyStrip w = w := by
    intro w hw
    rw [show sd.map Prod.snd = (sd.map Prod.snd).take 22 ++ (sd.map Prod.snd).drop 22 from
      (List.take_append_drop 22 (sd.map Prod.snd)).symm] at hw
    rcases List.mem_append.mp hw with h | h
    · have := hplain w h
      simp only [plainValWF, stripInv, Bool.and_eq_true, decide_eq_true_eq] at this
      exact this.1.2
    · have := hlast w h
      simp only [lastValWF, stripInv, Bool.and_eq_true, decide_eq_true_eq] at this
      exact this.1
  have hfree : ∀ w ∈ (sd.map Prod.snd).take 22, ',' ∉ w := by
    intro w hw
    have := hplain w hw
    simp only [plainValWF, Bool.and_eq_true, decide_eq_true_eq] at this
    exact this.1.1
  have hlastR : ∀ w, (sd.map Prod.snd).getLast? = some w → stripR w = w := by
    intro w hw
    have hmem := getLast_drop_mem (by rw [hvlen]) w hw
    have := hlast w hmem
    simp only [lastValWF, stripInv, Bool.and_eq_true, decide_eq_true_eq] at this
    exact (strip_both this.1).1
  have hline : styleLineIn STYLE_HEADERS (⟨sd⟩ : AssStyle) =
      chars "Style: " ++ joinSep [','] (sd.map Prod.snd) := by
    rw [styleLineIn]
    have h2 : STYLE_HEADERS.map (fun k => (dlookup k sd).getD []) = sd.map Prod.snd := by
      rw [← hkeys]
      exact map_dlookup_self hnd
    rw [h2]
  have hshape : chars "Style: " ++ joinSep [','] (sd.map Prod.snd) =
      chars "Style" ++ ':' :: ' ' :: joinSep [','] (sd.map Prod.snd) := by
    rw [show chars "Style: " = chars "Style" ++ [':', ' '] from by decide]
    simp
  have hR : stripR (chars "Style: " ++ joinSep [','] (sd.map Prod.snd)) =
      chars "Style: " ++ joinSep [','] (sd.map Prod.snd) :=
    stripR_line (by rw [hvlen]; omega) hlastR
  rw [hline, hshape]
  have hh := head_conds (k := chars "Style") (by decide)
  rw [pline_split (strip_cond hh (by rw [← hshape]; exact hR)) (by decide) (by decide)
    (head_cond1 hh) (head_cond2 hh)]
  rw [if_neg (show ¬(some (chars "V4+ Styles") = some (chars "Script Info")) from by decide),
    if_pos rfl]
  show Except.ok (⟨some (chars "V4+ Styles"), some STYLE_HEADERS,
    { d with styles := d.styles ++
      [⟨buildDict (STYLE_HEADERS.zip ((splitLimit ',' (STYLE_HEADERS.length - 1)
        (' ' :: joinSep [','] (sd.map Prod.snd))).map pyStrip))⟩] }⟩ : PState) = _
  rw [show STYLE_HEADERS.length - 1 = 22 from by decide,
    splitvals (by rw [hvlen]) hfree hvalwf]
  have hzip : STYLE_HEADERS.zip (sd.map Prod.snd) = sd := by
    rw [← hkeys]
    exact zip_fst_snd
  rw [hzip, buildDict_self hnd]

theorem pline_event {d : Ass} {e : AssEvent} (hwf : eventWF e = true) :
    pline ⟨some (chars "Events"), some EVENT_HEADERS, d⟩ (eventLineIn EVENT_HEADERS e) =
      .ok ⟨some (chars "Events"), some EVENT_HEADERS,
        { d with events := d.events ++ [e] }⟩ := by
  obtain ⟨et, ed⟩ := e
  simp only [eventWF, Bool.and_eq_true, decide_eq_true_eq, List.all_eq_true] at hwf
  obtain ⟨⟨⟨⟨⟨⟨hkeys, hplain⟩, hlast⟩, hcolon⟩, hkF⟩, hnl⟩, hhd⟩ := hwf
  have hnd : (ed.map Prod.fst).Nodup := by rw [hkeys]; decide
  have hedlen : ed.length = 10 := by
    have h := congrArg List.length hkeys
    rwa [List.length_map, show EVENT_HEADERS.length = 10 from by decide] at h
  have hvlen : (ed.map Prod.snd).length = 10 := by rw [List.length_map, hedlen]
  have hvalwf : ∀ w ∈ ed.map Prod.snd, pyStrip w = w := by
    intro w hw
    rw [show ed.map Prod.snd = (ed.map Prod.snd).take 9 ++ (ed.map Prod.snd).drop 9 from
      (List.take_append_drop 9 (ed.map Prod.snd)).symm] at hw
    rcases List.mem_append.mp hw with h | h
    · have := hplain w h
      simp only [plainValWF, stripInv, Bool.and_eq_true, decide_eq_true_eq] at this
      exact this.1.2
    · have := hlast w h
      simp only [lastValWF, stripInv, Bool.and_eq_true, decide_eq_true_eq] at this
      exact this.1
  have hfree : ∀ w ∈ (ed.map Prod.snd).take 9, ',' ∉ w := by
    intro w hw
    have := hplain w hw
    simp only [plainValWF, Bool.and_eq_true, decide_eq_true_eq] at this
    exact this.1.1
  have hlastR : ∀ w, (ed.map Prod.snd).getLast? = some w → stripR w = w := by
    intro w hw
    have hmem := getLast_drop_mem (by rw [hvlen]) w hw
    have := hlast w hmem
    simp only [lastValWF, stripInv, Bool.and_eq_true, decide_eq_true_eq] at this
    exact (strip_both this.1).1
  have hline : eventLineIn EVENT_HEADERS (⟨et, ed⟩ : AssEvent) =
      et ++ chars ": " ++ joinSep [','] (ed.map Prod.snd) := by
    rw [eventLineIn]
    have h2 : EVENT_HEADERS.map (fun k => (dlookup k ed).getD []) = ed.map Prod.snd := by
      rw [← hkeys]
      exact map_dlookup_self hnd
    rw [h2]
  have hshape : et ++ chars ": " ++ joinSep [','] (ed.map Prod.snd) =
      et ++ ':' :: ' ' :: joinSep [','] (ed.map Prod.snd) := by
    rw [show chars ": " = [':', ' '] from by decide]
    simp
  have hR : stripR (et ++ chars ": " ++ joinSep [','] (ed.map Prod.snd)) =
      et ++ chars ": " ++ joinSep [','] (ed.map Prod.snd) :=
    stripR_line (by rw [hvlen]; omega) hlastR
  rw [hline, hshape]
  have hh := head_conds (k := et) (by
    rcases het : et.head? with _ | c
    · rfl
    · rcases et with _ | ⟨c', t⟩
      · simp at het
      · simp only [List.head?_cons, Option.some.injEq] at het
        subst het
        simpa using hhd)
  rw [pline_split (strip_cond hh (by rw [← hshape]; exact hR)) hcolon hkF
    (head_cond1 hh) (head_cond2 hh)]
  rw [if_neg (show ¬(some (chars "Events") = some (chars "Script Info")) from by decide),
    if_neg (show ¬(some (chars "Events") = some (chars "V4+ Styles")) from by decide),
    if_pos rfl]
  show Except.ok (⟨some (chars "Events"), some EVENT_HEADERS,
    { d with events := d.events ++
      [⟨et, buildDict (EVENT_HEADERS.zip ((splitLimit ',' (EVENT_HEADERS.length - 1)
        (' ' :: joinSep [','] (ed.map Prod.snd))).map pyStrip))⟩] }⟩ : PState) = _
  rw [show EVENT_HEADERS.length - 1 = 9 from by decide,
    splitvals (by rw [hvlen]) hfree hvalwf]
  have hzip : EVENT_HEADERS.zip (ed.map Prod.snd) = ed := by
    rw [← hkeys]
    exact zip_fst_snd
  rw [hzip, buildDict_self hnd]

theorem foldlM_ok {f : PState → Str → Except PyErr PState} {l1 : List Str} {st st' : PState}
    (h : l1.foldlM f st = .ok st') (l2 : List Str) :
    (l1 ++ l2).foldlM f st = l2.foldlM f st' := by
  rw [List.foldlM_append, h]
  rfl

theorem pline_info_fold : ∀ (ps : List (Str × Str)) (hd : Option (List Str)) (d : Ass),
    (∀ kv ∈ ps, infoPairWF kv = true) →
    (ps.map (fun kv => kv.1 ++ ':' :: ' ' :: kv.2)).foldlM pline
        ⟨some (chars "Script Info"), hd, d⟩ =
      .ok ⟨some (chars "Script Info"), hd,
        { d with script_info := ps.foldl (fun m kv => dinsert kv.1 kv.2 m) d.script_info }⟩ := by
  intro ps
  induction ps with
  | nil => intro hd d _; rfl
  | cons kv t ih =>
      intro hd d hwf
      obtain ⟨k, v⟩ := kv
      rw [List.map_cons, List.foldlM_cons, pline_info (hwf (k, v) (List.mem_cons_self _ _)),
        exceptBind_ok, ih hd _ (fun kv' h' => hwf kv' (List.mem_cons_of_mem _ h'))]
      rfl

theorem pline_style_fold : ∀ (ss : List AssStyle) (d : Ass),
    (∀ s ∈ ss, styleWF s = true) →
    (ss.map (styleLineIn STYLE_HEADERS)).foldlM pline
        ⟨some (chars "V4+ Styles"), some STYLE_HEADERS, d⟩ =
      .ok ⟨some (chars "V4+ Styles"), some STYLE_HEADERS,
        { d with styles := d.styles ++ ss }⟩ := by
  intro ss
  induction ss with
  | nil =>
      intro d _
      simp only [List.map_nil, List.foldlM_nil, List.append_nil]
      rfl
  | cons s t ih =>
      intro d hwf
      rw [List.map_cons, List.foldlM_cons, pline_style (hwf s (List.mem_cons_self _ _)),
        exceptBind_ok, ih _ (fun s' h' => hwf s' (List.mem_cons_of_mem _ h'))]
      simp [List.append_assoc]

theorem pline_event_fold : ∀ (es : List AssEvent) (d : Ass),
    (∀ e ∈ es, eventWF e = true) →
    (es.map (eventLineIn EVENT_HEADERS)).foldlM pline
        ⟨some (chars "Events"), some EVENT_HEADERS, d⟩ =
      .ok ⟨some (chars "Events"), some EVENT_HEADERS,
        { d with events := d.events ++ es }⟩ := by
  intro es
  induction es with
  | nil =>
      intro d _
      simp only [List.map_nil, List.foldlM_nil, List.append_nil]
      rfl
  | cons e t ih =>
      intro d hwf
      rw [List.map_cons, List.foldlM_cons, pline_event (hwf e (List.mem_cons_self _ _)),
        exceptBind_ok, ih _ (fun e' h' => hwf e' (List.mem_cons_of_mem _ h'))]
      simp [List.append_assoc]

theorem styleLineIn_eq {s : AssStyle} (hkeys : s.data.map Prod.fst = STYLE_HEADERS) :
    styleLineIn STYLE_HEADERS s = chars "Style: " ++ joinSep [','] (s.data.map Prod.snd) := by
  rw [styleLineIn]
  have hnd : (s.data.map Prod.fst).Nodup := by rw [hkeys]; decide
  rw [show STYLE_HEADERS.map (fun k => (dlookup k s.data).getD []) = s.data.map Prod.snd from by
    rw [← hkeys]; exact map_dlookup_self hnd]

theorem eventLineIn_eq {e : AssEvent} (hkeys : e.data.map Prod.fst = EVENT_HEADERS) :
    eventLineIn EVENT_HEADERS e =
      e.event_type ++ chars ": " ++ joinSep [','] (e.data.map Prod.snd) := by
  rw [eventLineIn]
  have hnd : (e.data.map Prod.fst).Nodup := by rw [hkeys]; decide
  rw [show EVENT_HEADERS.map (fun k => (dlookup k e.data).getD []) = e.data.map Prod.snd from by
    rw [← hkeys]; exact map_dlookup_self hnd]

theorem style_vals_noLF {s : AssStyle} (hwf : styleWF s = true) :
    ∀ w ∈ s.data.map Prod.snd, '\n' ∉ w := by
  simp only [styleWF, Bool.and_eq_true, decide_eq_true_eq, List.all_eq_true] at hwf
  obtain ⟨⟨_, hplain⟩, hlast⟩ := hwf
  intro w hw
  rw [show s.data.map Prod.snd =
    (s.data.map Prod.snd).take 22 ++ (s.data.map Prod.snd).drop 22 from
    (List.take_append_drop 22 (s.data.map Prod.snd)).symm] at hw
  rcases List.mem_append.mp hw with h | h
  · have := hplain w h
    simp only [plainValWF, noLF, Bool.and_eq_true, decide_eq_true_eq] at this
    exact this.2
  · have := hlast w h
    simp only [lastValWF, noLF, Bool.and_eq_true, decide_eq_true_eq] at this
    exact this.2

theorem event_vals_noLF {e : AssEvent} (hwf : eventWF e = true) :
    '\n' ∉ e.event_type ∧ ∀ w ∈ e.data.map Prod.snd, '\n' ∉ w := by
  simp only [eventWF, Bool.and_eq_true, decide_eq_true_eq, List.all_eq_true] at hwf
  obtain ⟨⟨⟨⟨⟨⟨_, hplain⟩, hlast⟩, _⟩, _⟩, hnl⟩, _⟩ := hwf
  refine ⟨by simpa [noLF] using hnl, ?_⟩
  intro w hw
  rw [show e.data.map Prod.snd =
    (e.data.map Prod.snd).take 9 ++ (e.data.map Prod.snd).drop 9 from
    (List.take_append_drop 9 (e.data.map Prod.snd)).symm] at hw
  rcases List.mem_append.mp hw with h | h
  · have := hplain w h
    simp only [plainValWF, noLF, Bool.and_eq_true, decide_eq_true_eq] at this
    exact this.2
  · have := hlast w h
    simp only [lastValWF, noLF, Bool.and_eq_true, decide_eq_true_eq] at this
    exact this.2

theorem exportLines_noLF {a : Ass}
    (hsh : a.style_header = STYLE_HEADERS) (heh : a.event_header = EVENT_HEADERS)
    (hinfo : ∀ kv ∈ a.script_info, infoPairWF kv = true)
    (hstys : ∀ s ∈ a.styles, styleWF s = true)
    (hevs : ∀ e ∈ a.events, eventWF e = true) :
    ∀ l ∈ exportLinesIn STYLE_HEADERS EVENT_HEADERS a, '\n' ∉ l := by
  intro l hl
  rw [exportLinesIn, hsh, heh] at hl
  simp only [List.mem_append, List.mem_cons, List.mem_singleton, List.mem_map,
    List.not_mem_nil, or_false, false_or] at hl
  rcases hl with ((((((h | ⟨kv, hkv, rfl⟩) | h) | (h | h)) | ⟨s, hs, rfl⟩) | h) |
      (h | h)) | ⟨e, he, rfl⟩
  · subst h; decide
  · have hw := hinfo kv hkv
    simp only [infoPairWF, noLF, Bool.and_eq_true, decide_eq_true_eq] at hw
    intro hc
    rcases List.mem_append.mp hc with h1 | h1
    · exact hw.1.1.1.2 h1
    · rcases List.mem_cons.mp h1 with h2 | h2
      · exact absurd h2 (by decide)
      · rcases List.mem_cons.mp h2 with h3 | h3
        · exact absurd h3 (by decide)
        · exact hw.2 h3
  · subst h; simp
  · subst h; decide
  · subst h; decide
  · have hkeys : s.data.map Prod.fst = STYLE_HEADERS := by
      have hw := hstys s hs
      simp only [styleWF, Bool.and_eq_true, decide_eq_true_eq] at hw
      exact hw.1.1
    rw [styleLineIn_eq hkeys]
    intro hc
    rcases List.mem_append.mp hc with h1 | h1
    · exact absurd h1 (by decide)
    · rcases mem_joinSep h1 with h2 | ⟨w, hw, hcw⟩
      · exact absurd h2 (by decide)
      · exact style_vals_noLF (hstys s hs) w hw hcw
  · subst h; simp
  · subst h; decide
  · subst h; decide
  · have hkeys : e.data.map Prod.fst = EVENT_HEADERS := by
      have hw := hevs e he
      simp only [eventWF, Bool.and_eq_true, decide_eq_true_eq] at hw
      exact hw.1.1.1.1.1.1
    rw [eventLineIn_eq hkeys]
    intro hc
    rcases List.mem_append.mp hc with h1 | h1
    · rcases List.mem_append.mp h1 with h2 | h2
      · exact (event_vals_noLF (hevs e he)).1 h2
      · exact absurd h2 (by decide)
    · rcases mem_joinSep h1 with h2 | ⟨w, hw, hcw⟩
      · exact absurd h2 (by decide)
      · exact (event_vals_noLF (hevs e he)).2 w hw hcw

theorem export_roundtrip {a : Ass} (h : docWF a = true) :
    ∃ s, exportAss a = .ok s ∧ parseAss s = .ok a := by
  simp only [docWF, Bool.and_eq_true, decide_eq_true_eq, List.all_eq_true] at h
  obtain ⟨⟨⟨⟨⟨hsh, heh⟩, hinfo⟩, hnodup⟩, hstys⟩, hevs⟩ := h
  have hkeys_s : ∀ s ∈ a.styles, ∀ k ∈ STYLE_HEADERS, (dlookup k s.data).isSome = true := by
    intro s hs k hk
    have hw := hstys s hs
    simp only [styleWF, Bool.and_eq_true, decide_eq_true_eq] at hw
    exact dlookup_isSome_of_mem (by rw [hw.1.1]; exact hk)
  have hkeys_e : ∀ e ∈ a.events, ∀ k ∈ EVENT_HEADERS, (dlookup k e.data).isSome = true := by
    intro e he k hk
    have hw := hevs e he
    simp only [eventWF, Bool.and_eq_true, decide_eq_true_eq] at hw
    exact dlookup_isSome_of_mem (by rw [hw.1.1.1.1.1.1]; exact hk)
  have hexport : exportAss a =
      .ok (joinSep ['\n'] (exportLinesIn STYLE_HEADERS EVENT_HEADERS a)) := by
    rw [exportAss, exportLines,
      mapM_ok (g := styleLineIn STYLE_HEADERS) (fun s hs => styleStr_ok (hkeys_s s hs)),
      mapM_ok (g := eventLineIn EVENT_HEADERS) (fun e he => eventStr_ok (hkeys_e e he))]
    rfl
  refine ⟨_, hexport, ?_⟩
  have hlines := exportLines_noLF hsh heh hinfo hstys hevs
  have hsplit : splitAll '\n' (joinSep ['\n'] (exportLinesIn STYLE_HEADERS EVENT_HEADERS a)) =
      exportLinesIn STYLE_HEADERS EVENT_HEADERS a :=
    splitAll_join (by simp [exportLinesIn]) hlines
  rw [parseAss, hsplit]
  have hfoldl : a.script_info.foldl (fun m kv => dinsert kv.1 kv.2 m) ([] : Dict) =
      a.script_info := by
    have h2 := foldl_dinsert a.script_info [] (by simpa using hnodup)
    simpa using h2
  have hfold : (exportLinesIn STYLE_HEADERS EVENT_HEADERS a).foldlM pline
      ⟨none, none, emptyAss⟩ =
      .ok ⟨some (chars "Events"), some EVENT_HEADERS,
        ⟨a.script_info, STYLE_HEADERS, EVENT_HEADERS, a.styles, a.events⟩⟩ := by
    rw [exportLinesIn, hsh, heh]
    simp only [List.append_assoc, List.cons_append, List.singleton_append, List.nil_append]
    rw [List.foldlM_cons, pline_sect_si, exceptBind_ok,
      foldlM_ok (pline_info_fold a.script_info none emptyAss hinfo) _,
      List.foldlM_cons, pline_blank, exceptBind_ok,
      List.foldlM_cons, pline_sect_v4, exceptBind_ok,
      List.foldlM_cons, pline_format_styles, exceptBind_ok,
      foldlM_ok (pline_style_fold a.styles _ hstys) _,
      List.foldlM_cons, pline_blank, exceptBind_ok,
      List.foldlM_cons, pline_sect_ev, exceptBind_ok,
      List.foldlM_cons, pline_format_events, exceptBind_ok,
      pline_event_fold a.events _ hevs]
    simp [hfoldl]
    exact ⟨hfoldl, rfl, rfl⟩
  rw [hfold]
  show Except.ok (⟨a.script_info, STYLE_HEADERS, EVENT_HEADERS, a.styles, a.events⟩ : Ass) =
    Except.ok a
  rw [← hsh, ← heh]

/-- C1 (amended): parse-export-parse round-trips exactly on inputs whose parsed
document is well-formed with the canonical `Format:` field orders; the
serializer emits data lines in canonical order, so non-canonical stored orders
break the round trip. -/
theorem parse_export_roundtrip {t : Str} {d : Ass}
    (hp : parseAss t = .ok d) (hwf : docWF d = true) :
    reparse t = parseAss t := by
  obtain ⟨s, hex, hps⟩ := export_roundtrip hwf
  simp only [reparse, hp, hex, hps]

set_option maxRecDepth 16000 in
theorem parse_export_roundtrip_witness : reparse tC1w = parseAss tC1w :=
  parse_export_roundtrip
    (by decide : parseAss tC1w = .ok ((parseAss tC1w).toOption.getD emptyAss))
    (by decide)

set_option maxRecDepth 16000 in
theorem roundtrip_counterexample : reparse tC1bad ≠ parseAss tC1bad := by decide
